import Mathlib

/-!
Verification development for the `pool` package of ecloudclub/zkit
(`src/unnamed/part_000`): an adaptive worker pool with panic isolation,
least-loaded dispatch, overload fallback and two scaling policies.

Shallow embedding conventions:
* Go `int32` values are embedded as `Int` together with an explicit
  two's-complement wrap `wrap32` applied exactly where the source performs
  an `int32` store, conversion, or `atomic.AddInt32`.
* Go `int(float64(c) * 1.2)` / `int(float64(c) * 0.8)` truncate toward zero.
  For every `c` with `|c| < 2^31` (all values an `int32` field can hold) the
  float64 product rounds to a value whose truncation equals the exact
  truncated quotient, so they are embedded as `Int.tdiv (6*c) 5` and
  `Int.tdiv (4*c) 5`.
* `float64` metric values are embedded as `GoFloat`: either NaN, an
  infinity, or an exact rational (every finite double is a rational).
  `0.0/0.0 = NaN`, `x/0 = ±Inf` for `x ≠ 0`, and every ordered comparison
  involving NaN is `false`, exactly as in IEEE-754.  The queue-occupancy
  quotient is kept as the exact rational `len/cap`: comparing it against
  the thresholds agrees with the double comparison for every capacity
  below ~2^53, because a fraction `p/q` can fall between a threshold and
  its double rounding only for astronomically large `q`.  The idle
  fraction is different: `1.0 - float64(totalLoad)/float64(len)` involves
  a subtraction whose result can cross the `0.2`/`0.8` literals (at a true
  ratio of exactly 1/5, `1.0 - fl(4/5)` is strictly below the double
  `0.2`), so it is computed with explicit double rounding (`roundDouble`,
  exact round-to-nearest-even) and compared against the exact values of
  the double literals (`float02`, `float08`).
* The sequential interleaving model: each pool operation (a dispatch-loop
  iteration, a scaling tick, a submission, a shutdown) is a state
  transformer on `PoolState`; goroutine scheduling freedom is captured by
  quantifying over operation sequences and over oracles telling which
  workers accept a non-blocking channel handoff.
-/

/-- `math.MaxInt32`, the sentinel `selectWorker` starts its minimum scan from. -/
def int32Max : Int := 2147483647

/-- Two's-complement wrap of an integer into the `int32` range
`[-2^31, 2^31)`; models Go `int32` conversion and `int32` overflow. -/
def wrap32 (z : Int) : Int := (z + 2147483648) % 4294967296 - 2147483648

/-- A `float64` value as observable by this program: NaN, an infinity, or an
exact finite rational. -/
inductive GoFloat where
  | nan : GoFloat
  | inf : GoFloat
  | negInf : GoFloat
  | val : ℚ → GoFloat
deriving DecidableEq

/-- IEEE-754 `float64` division of two integer-valued finite operands (the
program only ever divides integer counts cast to float64): `0/0` is NaN,
`x/0` is a signed infinity, and otherwise the exact rational quotient. -/
def fdiv (a b : Int) : GoFloat :=
  if b = 0 then
    if a = 0 then .nan else if a > 0 then .inf else .negInf
  else .val (Rat.divInt a b)

/-- IEEE-754 `>` on float64: every comparison involving NaN is false. -/
def fgt : GoFloat → GoFloat → Bool
  | .nan, _ => false
  | _, .nan => false
  | .inf, .inf => false
  | .inf, _ => true
  | _, .inf => false
  | .negInf, _ => false
  | .val _, .negInf => true
  | .val a, .val b => decide (b < a)

/-- IEEE-754 `<` on float64: `a < b` iff `b > a` (false whenever NaN is involved). -/
def flt (a b : GoFloat) : Bool := fgt b a

/-- Fuel-driven `⌊log₂ n⌋` (the fuel `n` itself always suffices), using
structural recursion so that it evaluates inside the kernel. -/
def natLog2Aux : Nat → Nat → Nat
  | 0, _ => 0
  | Nat.succ fuel, n => if 2 ≤ n then natLog2Aux fuel (n / 2) + 1 else 0

/-- `⌊log₂ n⌋` (0 at 0 and 1). -/
def natLog2 (n : Nat) : Nat := natLog2Aux n n

/-- Round the non-negative value `n / d` (`d ≠ 0`) to the nearest integer,
ties to even — the integer-scaled core of IEEE-754 round-to-nearest-even. -/
def roundNearestEven (n d : Nat) : Nat :=
  let q := n / d
  let r := n % d
  if 2 * r < d then q
  else if d < 2 * r then q + 1
  else if q % 2 = 0 then q else q + 1

/-- Does `2^e ≤ a / b` hold (for positive naturals `a`, `b`)? -/
def pow2Le (e : Int) (a b : Nat) : Bool :=
  if 0 ≤ e then decide (b * 2 ^ e.toNat ≤ a) else decide (b ≤ a * 2 ^ (-e).toNat)

/-- The binade exponent of `a / b`: the unique `e` with
`2^e ≤ a/b < 2^(e+1)`.  The candidate `natLog2 a - natLog2 b` is within
one of it, and the two corrective tests select the exact value. -/
def ratExponent (a b : Nat) : Int :=
  let c : Int := (natLog2 a : Int) - (natLog2 b : Int)
  if pow2Le (c + 1) a b then c + 1
  else if pow2Le c a b then c
  else c - 1

/-- Exact subtraction of rationals, spelled through `mkRat` so that it
evaluates inside the kernel; `ratSub_eq` (below) shows it is ordinary
rational subtraction. -/
def ratSub (a b : ℚ) : ℚ :=
  mkRat (a.num * (b.den : Int) - b.num * (a.den : Int)) (a.den * b.den)

/-- Round a rational to the nearest IEEE-754 binary64 value, ties to
even, with unbounded exponent range: on every value this program produces
— magnitudes between roughly `2^-64` and `2^63`, far from overflow and
subnormal territory — this is exactly double-precision rounding.  The
input is scaled by the power of two that lands its binade on
`[2^52, 2^53)` and the scaled value rounded to the nearest (even)
integer, which becomes the significand. -/
def roundDouble (q : ℚ) : ℚ :=
  if q = 0 then 0
  else
    let a : Nat := q.num.natAbs
    let b : Nat := q.den
    let e : Int := ratExponent a b
    let m : Nat :=
      if 0 ≤ 52 - e then roundNearestEven (a * 2 ^ (52 - e).toNat) b
      else roundNearestEven a (b * 2 ^ (e - 52).toNat)
    let mag : ℚ :=
      if 0 ≤ e - 52 then mkRat ((m : Int) * 2 ^ (e - 52).toNat) 1
      else mkRat (m : Int) (2 ^ (52 - e).toNat)
    if 0 < q.num then mag else -mag

/-- The exact value of the double-precision literal `0.2`:
`3602879701896397 / 2^54`, slightly above `1/5`. -/
def float02 : ℚ := mkRat 3602879701896397 18014398509481984

/-- The exact value of the double-precision literal `0.8`:
`3602879701896397 / 2^52`, slightly above `4/5`. -/
def float08 : ℚ := mkRat 3602879701896397 4503599627370496

/-- float64 evaluation of `1.0 - float64(totalLoad)/float64(len)`, the
`idleWorkers` line of `updateMetrics` (guarded there by `len > 0`): the
integer-to-double conversions are exact (both operands are far inside
`2^53`), and the division and the subtraction are each correctly rounded.
At a true idle fraction of exactly `1/5` (say `totalLoad = 4`,
`len = 5`) this yields `1.0 - fl(4/5) = 900719925474099/2^52`, strictly
below the double literal `0.2` — observably different from the exact
ratio. -/
def idleValue (total n : Int) : ℚ :=
  roundDouble (ratSub 1 (roundDouble (Rat.divInt total n)))

/-- A Go `error` value: either a base error created by `errors.New`, or a
wrapping error created by `fmt.Errorf` with a `%w` verb (it carries the
wrapped error and the formatted message suffix). -/
inductive GoErr where
  | base : String → GoErr
  | wrap : GoErr → String → GoErr
deriving DecidableEq

/-- `errTaskRunningPanic`, the distinguished base error of the package. -/
def errTaskRunningPanic : GoErr := .base ("zkit: Task 运行时异常")

/-- Go `errors.Is`: unwraps `%w` chains looking for the target. -/
def errorsIs : GoErr → GoErr → Bool
  | .base m, t => decide (GoErr.base m = t)
  | .wrap inner m, t => decide (GoErr.wrap inner m = t) || errorsIs inner t

/-- The observable behaviour of one execution of a `Task.Run` call: it either
returns an error value (possibly nil), or panics.  The panic payload is
embedded by its `%+v` rendering. -/
inductive RunResult where
  | ok : Option GoErr → RunResult
  | panicked : String → RunResult
deriving DecidableEq

/-- A caller-supplied `Task`, represented by the behaviour of its `Run`. -/
structure PoolTask where
  run : RunResult
deriving DecidableEq

/-- `panicBuffLen = 2048`, the stack-capture buffer size. -/
def panicBuffLen : Nat := 2048

/-- `buf = buf[:runtime.Stack(buf, false)]`: the raw runtime stack text
truncated to the `panicBuffLen`-byte buffer.  The raw stack text is an
environment input. -/
def truncStack (raw : String) : String := ⟨raw.data.take panicBuffLen⟩

/-- The message built by the deferred recover handler:
`fmt.Sprintf("[PANIC]:\t%+v\n%s\n", r, buf)`. -/
def panicMessage (r : String) (trace : String) : String :=
  ("[PANIC]:\x09") ++ r ++ ("\n") ++ trace ++ ("\n")

/-- `taskWrapper.Run`: runs the wrapped task; a panic is recovered and
converted into `fmt.Errorf("%w：%s", errTaskRunningPanic, msg)`; a normal
return passes through unchanged.  `raw` is the runtime stack text the
deferred `runtime.Stack` call would capture. -/
def taskWrapperRun (t : PoolTask) (raw : String) : RunResult :=
  match t.run with
  | .ok e => .ok e
  | .panicked r =>
      .ok (some (.wrap errTaskRunningPanic (panicMessage r (truncStack raw))))

/-- What a goroutine running a task does to the process: it either completes
(yielding the error value, which the worker loop discards), or lets an
uncaught panic escape, which terminates the whole Go process. -/
inductive ExecEffect where
  | completed : Option GoErr → ExecEffect
  | processCrash : String → ExecEffect
deriving DecidableEq

/-- Execution on the worker-loop path (`tr := &taskWrapper{t: t}; tr.Run(...)`):
always completes, because the wrapper recovers every panic. -/
def workerExecute (t : PoolTask) (raw : String) : ExecEffect :=
  match taskWrapperRun t raw with
  | .ok e => .completed e
  | .panicked r => .processCrash r

/-- Execution on the untracked fallback path (`go t.Run(context.Background())`):
the raw task runs with no wrapper, so a panic escapes the goroutine and
crashes the process. -/
def rawExecute (t : PoolTask) : ExecEffect :=
  match t.run with
  | .ok e => .completed e
  | .panicked r => .processCrash r

/-- A `worker`: its `id`, the tasks that have been handed to its inbox
channel (in handoff order), and whether `stop()` has closed its quit
channel. -/
structure Worker where
  id : Int
  inbox : List PoolTask
  stopped : Bool
deriving DecidableEq

/-- `newWorker(id)`. -/
def newWorker (i : Int) : Worker := { id := i, inbox := [], stopped := false }

/-- `worker.stop()`: close the quit channel. -/
def stopWorker (w : Worker) : Worker := { w with stopped := true }

/-- Default worker used only as the `getD` fallback at indices that are
proved in range. -/
def dummyWorker : Worker := { id := 0, inbox := [], stopped := false }

/-- The `WorkPool` state.  `currentWorkers` is the `int32` atomic counter;
`workerLoads` is the fixed `maxWorkers`-sized array of `int32` load
counters; `queue`/`queueCap`/`queueClosed` model the buffered `taskQueue`
channel; `metricsQueueUsage`, `metricsIdleWorkers` and `adjustThreshold`
are the float64 fields read by the scaling policies.  `retired` is a ghost
history of workers removed by shrinking (the source drops them after
calling `stop()`); it exists so theorems can speak about which workers a
shrink stopped, and no operation reads it. -/
structure PoolState where
  minWorkers : Int
  maxWorkers : Int
  currentWorkers : Int
  queue : List PoolTask
  queueCap : Nat
  queueClosed : Bool
  workers : List Worker
  workerLoads : List Int
  metricsQueueUsage : GoFloat
  metricsIdleWorkers : GoFloat
  adjustThreshold : GoFloat
  retired : List Worker
deriving DecidableEq

/-- `NewWorkPool(minWorkers, maxWorkers, queueSize)`: starts `minWorkers`
workers with ids `0..minWorkers-1`, a zeroed `maxWorkers`-sized load array,
zero-valued metrics, and the default threshold `0.8`. -/
def NewWorkPool (minW maxW : Int) (queueSize : Nat) : PoolState :=
  { minWorkers := minW
    maxWorkers := maxW
    currentWorkers := wrap32 minW
    queue := []
    queueCap := queueSize
    queueClosed := false
    workers := (List.range minW.toNat).map (fun i : Nat => newWorker (i : Int))
    workerLoads := List.replicate maxW.toNat 0
    metricsQueueUsage := .val 0
    metricsIdleWorkers := .val 0
    adjustThreshold := .val (mkRat 4 5)
    retired := [] }

/-- The scan loop of `selectWorker`: iterates over the load array with the
running strict minimum, breaking as soon as the index reaches
`len(p.workers)`.  `minLoad` starts at `math.MaxInt32` and `selectedIndex`
at `-1`. -/
def selectWorkerAux (nWorkers : Nat) : List Int → Nat → Int → Int → Int
  | [], _, _, sel => sel
  | load :: rest, i, minLoad, sel =>
      if nWorkers ≤ i then sel
      else if load < minLoad then selectWorkerAux nWorkers rest (i + 1) load (i : Int)
      else selectWorkerAux nWorkers rest (i + 1) minLoad sel

/-- `WorkPool.selectWorker`: `-1` for an empty worker set, otherwise the
scan above over `p.workerLoads`. -/
def selectWorker (s : PoolState) : Int :=
  if s.workers.length = 0 then -1
  else selectWorkerAux s.workers.length s.workerLoads 0 int32Max (-1)

/-- A successful non-blocking handoff to worker `i`: the task goes to that
worker's inbox and `atomic.AddInt32(&p.workerLoads[i], 1)` runs. -/
def deliverTo (s : PoolState) (i : Nat) (t : PoolTask) : PoolState :=
  match s.workers.get? i with
  | some w =>
      { s with
        workers := s.workers.set i { w with inbox := w.inbox ++ [t] }
        workerLoads := s.workerLoads.set i (wrap32 (s.workerLoads.getD i 0 + 1)) }
  | none => s

/-- The `for i, w := range p.workers` re-scan of `handleOverload`: the first
index `≥ start` (among `count` remaining) whose non-blocking send succeeds,
according to the acceptance oracle. -/
def firstAcceptingAux (acc : Nat → Bool) : Nat → Nat → Option Nat
  | _, 0 => none
  | i, Nat.succ k => if acc i then some i else firstAcceptingAux acc (i + 1) k

/-- First live worker accepting a non-blocking handoff, if any. -/
def firstAccepting (n : Nat) (acc : Nat → Bool) : Option Nat :=
  firstAcceptingAux acc 0 n

/-- Go `int(float64(c) * 1.2)` for `|c| < 2^31` (see the header comment). -/
def goTrunc12 (c : Int) : Int := Int.tdiv (6 * c) 5

/-- Go `int(float64(c) * 0.8)` for `|c| < 2^31` (see the header comment). -/
def goTrunc08 (c : Int) : Int := Int.tdiv (4 * c) 5

/-- The worker-creation loop shared by `quickScaleUp` and the growth branch
of `adjustWorkerCount`: `k` times, append `newWorker(i)` (with `i` the Go
loop variable) and `atomic.AddInt32(&p.currentWorkers, 1)`. -/
def growWorkers : PoolState → Int → Nat → PoolState
  | s, _, 0 => s
  | s, i, Nat.succ k =>
      growWorkers
        { s with
          workers := s.workers ++ [newWorker i]
          currentWorkers := wrap32 (s.currentWorkers + 1) } (i + 1) k

/-- `WorkPool.quickScaleUp`: no-op at or above `maxWorkers`; otherwise grow
to `int(float64(current) * 1.2)` clamped above by `maxWorkers`. -/
def quickScaleUp (s : PoolState) : PoolState :=
  let currentWorkers := s.currentWorkers
  if currentWorkers ≥ s.maxWorkers then s
  else
    let target0 := goTrunc12 currentWorkers
    let targetWorkers := if target0 > s.maxWorkers then s.maxWorkers else target0
    growWorkers s currentWorkers (targetWorkers - currentWorkers).toNat

/-- How one dispatched task left the pool's control. -/
inductive DispatchResult where
  | handedTo : Nat → DispatchResult
  | overloadHandedTo : Nat → DispatchResult
  | fallbackRun : ExecEffect → DispatchResult
deriving DecidableEq

/-- Observable report of one dispatch-loop iteration: whether
`quickScaleUp` was invoked, and where the task went. -/
structure OverloadReport where
  scaledUp : Bool
  result : DispatchResult
deriving DecidableEq

/-- `WorkPool.handleOverload`: (1) if the cached `p.metrics.queueUsage`
exceeds `p.adjustThreshold`, run `quickScaleUp` synchronously; (2) re-scan
every live worker once with a non-blocking send, taking the first that
accepts; (3) otherwise `go t.Run(context.Background())` — the raw task,
untracked and unwrapped. -/
def handleOverload (s : PoolState) (t : PoolTask) (acc : Nat → Bool) :
    PoolState × OverloadReport :=
  let scaled := fgt s.metricsQueueUsage s.adjustThreshold
  let s1 := if scaled then quickScaleUp s else s
  match firstAccepting s1.workers.length acc with
  | some i => (deliverTo s1 i t, { scaledUp := scaled, result := .overloadHandedTo i })
  | none => (s1, { scaledUp := scaled, result := .fallbackRun (rawExecute t) })

/-- The body of the `dispatch` loop for one dequeued task `t`: select the
least-loaded worker, attempt a non-blocking handoff (`acc1` says whether
the chosen worker's channel accepts), and on any failure escalate to
`handleOverload` (whose re-scan consults `acc2`). -/
def dispatchStep (s : PoolState) (t : PoolTask) (acc1 acc2 : Nat → Bool) :
    PoolState × OverloadReport :=
  let workerIndex := selectWorker s
  if workerIndex ≥ 0 then
    if workerIndex < (s.workers.length : Int) then
      if acc1 workerIndex.toNat then
        (deliverTo s workerIndex.toNat t,
         { scaledUp := false, result := .handedTo workerIndex.toNat })
      else handleOverload s t acc2
    else handleOverload s t acc2
  else handleOverload s t acc2

/-- The `totalLoad` accumulation of `updateMetrics`: an `int32` sum of the
load counters at indices below `len(p.workers)`. -/
def totalLoadOf (s : PoolState) : Int :=
  (s.workerLoads.take s.workers.length).foldl (fun a v => wrap32 (a + v)) 0

/-- `WorkPool.updateMetrics`: recompute `queueUsage = len/cap` (float64) and,
when there is at least one worker, `idleWorkers = 1 - totalLoad/len(workers)`.
The informational `cpuUsage`/`memoryUsage` fields are read from the Go
runtime, are consulted by no decision in the package, and are omitted. -/
def updateMetrics (s : PoolState) : PoolState :=
  let queueUsage := fdiv ((s.queue.length : Int)) ((s.queueCap : Int))
  let idle :=
    if 0 < s.workers.length then
      GoFloat.val (idleValue (totalLoadOf s) ((s.workers.length : Int)))
    else s.metricsIdleWorkers
  { s with metricsQueueUsage := queueUsage, metricsIdleWorkers := idle }

/-- The growth condition of `adjustWorkerCount`:
`queueUsage > adjustThreshold && idleWorkers < 0.2`.  The stored
`idleWorkers` value is the exact rational of a float64 (see `idleValue`),
so comparing it against the exact value of the double literal `0.2` is
exactly the IEEE comparison the program performs. -/
def growCond (s : PoolState) : Bool :=
  fgt s.metricsQueueUsage s.adjustThreshold && flt s.metricsIdleWorkers (.val float02)

/-- The shrink condition of `adjustWorkerCount`:
`queueUsage < 0.2 && idleWorkers > 0.8`, with the idle side compared
against the exact value of the double literal `0.8` (the occupancy side
keeps the exact quotient, which agrees with the double comparison for
every realisable capacity — see the header). -/
def shrinkCond (s : PoolState) : Bool :=
  flt s.metricsQueueUsage (.val (mkRat 1 5)) && fgt s.metricsIdleWorkers (.val float08)

/-- The clamp of `adjustWorkerCount`: below `minWorkers` go to `minWorkers`,
above `maxWorkers` go to `maxWorkers`. -/
def clampTarget (s : PoolState) (t0 : Int) : Int :=
  if t0 < s.minWorkers then s.minWorkers
  else if t0 > s.maxWorkers then s.maxWorkers
  else t0

/-- The shrink loop of `adjustWorkerCount`: `k` iterations of
`for i := currentWorkers - 1; i >= targetWorkers; i--`; each stops worker
`i` (recorded in the `retired` ghost), truncates the slice, and decrements
the atomic counter, guarded by `i < len(p.workers)`. -/
def shrinkWorkers : PoolState → Int → Nat → PoolState
  | s, _, 0 => s
  | s, i, Nat.succ k =>
      let s' :=
        if i < (s.workers.length : Int) then
          { s with
            workers := s.workers.take i.toNat
            currentWorkers := wrap32 (s.currentWorkers - 1)
            retired := s.retired ++ [stopWorker (s.workers.getD i.toNat dummyWorker)] }
        else s
      shrinkWorkers s' (i - 1) k

/-- `WorkPool.adjustWorkerCount`: pick a target from the cached metrics
(grow to 120%, shrink to 80%, else keep), clamp it to
`[minWorkers, maxWorkers]`, then grow or shrink to it. -/
def adjustWorkerCount (s : PoolState) : PoolState :=
  let currentWorkers := s.currentWorkers
  let target0 :=
    if growCond s then goTrunc12 currentWorkers
    else if shrinkCond s then goTrunc08 currentWorkers
    else currentWorkers
  let targetWorkers := clampTarget s target0
  if targetWorkers = currentWorkers then s
  else if targetWorkers > currentWorkers then
    growWorkers s currentWorkers (targetWorkers - currentWorkers).toNat
  else shrinkWorkers s (currentWorkers - 1) (currentWorkers - targetWorkers).toNat

/-- `WorkPool.stop`: signal every worker's quit channel and close the task
queue. -/
def stopPool (s : PoolState) : PoolState :=
  { s with workers := s.workers.map stopWorker, queueClosed := true }

/-- The possible outcomes of a submission, i.e. a send on the buffered
`taskQueue` channel (the package exposes no `Submit` wrapper around it). -/
inductive SubmitResult where
  | enqueued : PoolState → SubmitResult
  | wouldBlock : SubmitResult
  | panicked : String → SubmitResult
deriving DecidableEq

/-- Sending a task on `p.taskQueue`, with Go channel semantics: a send on a
closed channel panics; a send on a full open buffered channel blocks. -/
def submit (s : PoolState) (t : PoolTask) : SubmitResult :=
  if s.queueClosed then .panicked ("send on closed channel")
  else if s.queue.length < s.queueCap then .enqueued { s with queue := s.queue ++ [t] }
  else .wouldBlock

/-- One observable pool operation of the sequential interleaving model:
a dispatch-loop iteration (with its two acceptance oracles), a submission,
one tick of `adjustWorkers` (`updateMetrics` then `adjustWorkerCount`), or
`stop()`. -/
inductive PoolOp where
  | dispatchOp : (Nat → Bool) → (Nat → Bool) → PoolOp
  | submitOp : PoolTask → PoolOp
  | tick : PoolOp
  | stopOp : PoolOp

/-- Apply one operation.  A blocked or panicking submission leaves no new
state behind (the real process would block or crash there, producing no
further transitions from that state; over-approximating it as a stutter keeps
every genuinely reachable state reachable in the model). -/
def applyOp (s : PoolState) : PoolOp → PoolState
  | .dispatchOp acc1 acc2 =>
      match s.queue with
      | [] => s
      | t :: rest => (dispatchStep { s with queue := rest } t acc1 acc2).1
  | .submitOp t =>
      match submit s t with
      | .enqueued s' => s'
      | _ => s
  | .tick => adjustWorkerCount (updateMetrics s)
  | .stopOp => stopPool s

/-- Run a sequence of pool operations from a state. -/
def runOps (s : PoolState) (ops : List PoolOp) : PoolState := ops.foldl applyOp s

/-- Well-formedness of a pool state, as established by `NewWorkPool` under
the documented constructor constraints `0 < minWorkers ≤ maxWorkers`
restricted to the `int32` range, and preserved by every operation:
the worker-count invariant, agreement between the atomic counter and the
slice length, the fixed load-array size, `int32`-ranged load counters, and
the constant threshold. -/
def WF (s : PoolState) : Prop :=
  0 < s.minWorkers ∧
  s.minWorkers ≤ s.maxWorkers ∧
  s.maxWorkers < 2147483648 ∧
  s.minWorkers ≤ s.currentWorkers ∧
  s.currentWorkers ≤ s.maxWorkers ∧
  s.currentWorkers = (s.workers.length : Int) ∧
  (s.workerLoads.length : Int) = s.maxWorkers ∧
  (∀ v ∈ s.workerLoads, -2147483648 ≤ v ∧ v < 2147483648) ∧
  s.adjustThreshold = .val (mkRat 4 5)

theorem wrap32_eq_self {z : Int} (h1 : -2147483648 ≤ z) (h2 : z < 2147483648) :
    wrap32 z = z := by
  unfold wrap32
  omega

theorem wrap32_range (z : Int) : -2147483648 ≤ wrap32 z ∧ wrap32 z < 2147483648 := by
  unfold wrap32
  omega

theorem goTrunc12_ge {c : Int} (hc : 0 ≤ c) : c ≤ goTrunc12 c := by
  unfold goTrunc12
  rw [Int.tdiv_eq_ediv (by omega) (by omega)]
  omega

theorem goTrunc08_le {c : Int} (hc : 0 ≤ c) : goTrunc08 c ≤ c ∧ 0 ≤ goTrunc08 c := by
  unfold goTrunc08
  rw [Int.tdiv_eq_ediv (by omega) (by omega)]
  omega

theorem getD_set_self {α} (l : List α) (i : Nat) (v d : α) (h : i < l.length) :
    (l.set i v).getD i d = v := by
  rw [List.getD_eq_getElem?_getD, List.getElem?_set_self h]
  rfl

theorem getD_set_ne {α} (l : List α) (i j : Nat) (v d : α) (h : i ≠ j) :
    (l.set i v).getD j d = l.getD j d := by
  rw [List.getD_eq_getElem?_getD, List.getElem?_set_ne h, ← List.getD_eq_getElem?_getD]

/-- Everything the worker-creation loop leaves untouched, plus the exact
workers it appends. -/
theorem growWorkers_fields : ∀ (k : Nat) (s : PoolState) (i : Int),
    (growWorkers s i k).minWorkers = s.minWorkers ∧
    (growWorkers s i k).maxWorkers = s.maxWorkers ∧
    (growWorkers s i k).queue = s.queue ∧
    (growWorkers s i k).queueCap = s.queueCap ∧
    (growWorkers s i k).queueClosed = s.queueClosed ∧
    (growWorkers s i k).workerLoads = s.workerLoads ∧
    (growWorkers s i k).metricsQueueUsage = s.metricsQueueUsage ∧
    (growWorkers s i k).metricsIdleWorkers = s.metricsIdleWorkers ∧
    (growWorkers s i k).adjustThreshold = s.adjustThreshold ∧
    (growWorkers s i k).retired = s.retired ∧
    (growWorkers s i k).workers
      = s.workers ++ (List.range k).map (fun j : Nat => newWorker (i + (j : Int))) := by
  intro k
  induction k with
  | zero => intro s i; simp [growWorkers]
  | succ k ih =>
      intro s i
      obtain ⟨h1, h2, h3, h4, h5, h6, h7, h8, h9, h10, h11⟩ :=
        ih { s with workers := s.workers ++ [newWorker i],
                    currentWorkers := wrap32 (s.currentWorkers + 1) } (i + 1)
      refine ⟨h1, h2, h3, h4, h5, h6, h7, h8, h9, h10, ?_⟩
      show (growWorkers _ (i + 1) k).workers = _
      rw [h11, List.range_succ_eq_map, List.map_cons, List.map_map, List.append_assoc,
        List.singleton_append]
      have h0 : newWorker (i + ((0 : Nat) : Int)) = newWorker i := by norm_num
      rw [h0]
      have hmap : List.map (fun j : Nat => newWorker (i + 1 + (j : Int))) (List.range k)
          = List.map ((fun j : Nat => newWorker (i + (j : Int))) ∘ Nat.succ) (List.range k) := by
        refine List.map_congr_left fun j _ => ?_
        simp only [Function.comp]
        refine congrArg newWorker ?_
        push_cast
        ring
      rw [hmap]

/-- The atomic counter after the worker-creation loop, in the no-overflow
range. -/
theorem growWorkers_current : ∀ (k : Nat) (s : PoolState) (i : Int),
    -2147483648 ≤ s.currentWorkers → s.currentWorkers + k < 2147483648 →
    (growWorkers s i k).currentWorkers = s.currentWorkers + k := by
  intro k
  induction k with
  | zero => intro s i _ _; simp [growWorkers]
  | succ k ih =>
      intro s i h1 h2
      have h2' : s.currentWorkers + (k : Int) + 1 < 2147483648 := by
        push_cast at h2
        omega
      have hw : wrap32 (s.currentWorkers + 1) = s.currentWorkers + 1 :=
        wrap32_eq_self (by omega) (by omega)
      have hA : -2147483648 ≤ wrap32 (s.currentWorkers + 1) := by
        rw [hw]
        omega
      have hB : wrap32 (s.currentWorkers + 1) + (k : Int) < 2147483648 := by
        rw [hw]
        omega
      have hres := ih { s with workers := s.workers ++ [newWorker i],
                               currentWorkers := wrap32 (s.currentWorkers + 1) } (i + 1) hA hB
      show (growWorkers { s with workers := s.workers ++ [newWorker i],
                                 currentWorkers := wrap32 (s.currentWorkers + 1) }
              (i + 1) k).currentWorkers = s.currentWorkers + ((k + 1 : Nat) : Int)
      rw [hres]
      show wrap32 (s.currentWorkers + 1) + (k : Int) = _
      rw [hw]
      push_cast
      ring

/-- Everything the shrink loop leaves untouched. -/
theorem shrinkWorkers_fields : ∀ (k : Nat) (s : PoolState) (i : Int),
    (shrinkWorkers s i k).minWorkers = s.minWorkers ∧
    (shrinkWorkers s i k).maxWorkers = s.maxWorkers ∧
    (shrinkWorkers s i k).queue = s.queue ∧
    (shrinkWorkers s i k).queueCap = s.queueCap ∧
    (shrinkWorkers s i k).queueClosed = s.queueClosed ∧
    (shrinkWorkers s i k).workerLoads = s.workerLoads ∧
    (shrinkWorkers s i k).metricsQueueUsage = s.metricsQueueUsage ∧
    (shrinkWorkers s i k).metricsIdleWorkers = s.metricsIdleWorkers ∧
    (shrinkWorkers s i k).adjustThreshold = s.adjustThreshold := by
  intro k
  induction k with
  | zero => intro s i; simp [shrinkWorkers]
  | succ k ih =>
      intro s i
      simp only [shrinkWorkers]
      by_cases h : i < (s.workers.length : Int)
      · simp only [if_pos h]
        obtain ⟨h1, h2, h3, h4, h5, h6, h7, h8, h9⟩ := ih
          { s with
            workers := s.workers.take i.toNat
            currentWorkers := wrap32 (s.currentWorkers - 1)
            retired := s.retired ++ [stopWorker (s.workers.getD i.toNat dummyWorker)] } (i - 1)
        exact ⟨h1, h2, h3, h4, h5, h6, h7, h8, h9⟩
      · simp only [if_neg h]
        exact ih s (i - 1)

/-- Splitting off the last element of a list before a `drop`. -/
theorem drop_eq_drop_take_concat {α} (l : List α) (d : α) (n m : Nat)
    (hn : l.length = n) (h1 : 1 ≤ n) (hm : m ≤ n - 1) :
    l.drop m = (l.take (n - 1)).drop m ++ [l.getD (n - 1) d] := by
  have hlast : l.drop (n - 1) = [l.getD (n - 1) d] := by
    rw [List.getD_eq_getElem l d (by omega), List.drop_eq_getElem_cons (by omega)]
    have : n - 1 + 1 = l.length := by omega
    rw [this, List.drop_length]
  conv_lhs => rw [← List.take_append_drop (n - 1) l]
  rw [List.drop_append_eq_append_drop, hlast]
  have : m - (l.take (n - 1)).length = 0 := by
    simp [List.length_take]
    omega
  rw [this, List.drop_zero]

/-- The shrink loop under the pool invariant: started at index `len - 1`
for `k ≤ len` iterations, it keeps exactly the first `len - k` workers,
records the dropped ones — highest index first — as stopped, and lands the
atomic counter exactly on `len - k`. -/
theorem shrinkWorkers_spec : ∀ (k : Nat) (s : PoolState),
    s.currentWorkers = (s.workers.length : Int) →
    k ≤ s.workers.length →
    (s.workers.length : Int) ≤ 2147483648 →
    (shrinkWorkers s ((s.workers.length : Int) - 1) k).workers
        = s.workers.take (s.workers.length - k) ∧
    (shrinkWorkers s ((s.workers.length : Int) - 1) k).currentWorkers
        = ((s.workers.length - k : Nat) : Int) ∧
    (shrinkWorkers s ((s.workers.length : Int) - 1) k).retired
        = s.retired ++ ((s.workers.drop (s.workers.length - k)).map stopWorker).reverse := by
  intro k
  induction k with
  | zero =>
      intro s hcur _ _
      refine ⟨by simp [shrinkWorkers], by simpa [shrinkWorkers] using hcur, by simp [shrinkWorkers]⟩
  | succ k ih =>
      intro s hcur hk hbound
      have hn : 1 ≤ s.workers.length := by omega
      have hlt : (s.workers.length : Int) - 1 < (s.workers.length : Int) := by omega
      have htoNat : ((s.workers.length : Int) - 1).toNat = s.workers.length - 1 := by omega
      have hwrap : wrap32 (s.currentWorkers - 1) = s.currentWorkers - 1 := by
        refine wrap32_eq_self (by omega) (by omega)
      simp only [shrinkWorkers, if_pos hlt]
      set b := stopWorker (s.workers.getD ((s.workers.length : Int) - 1).toNat dummyWorker) with hb
      set s' : PoolState :=
        { s with
          workers := s.workers.take ((s.workers.length : Int) - 1).toNat
          currentWorkers := wrap32 (s.currentWorkers - 1)
          retired := s.retired ++ [b] } with hs'
      have hsw : s'.workers = s.workers.take (s.workers.length - 1) := by
        rw [hs']
        show s.workers.take ((s.workers.length : Int) - 1).toNat = _
        rw [htoNat]
      have hsr : s'.retired = s.retired ++ [b] := by rw [hs']
      have hlen' : s'.workers.length = s.workers.length - 1 := by
        rw [hsw, List.length_take]
        omega
      have hcur' : s'.currentWorkers = (s'.workers.length : Int) := by
        rw [hlen']
        show wrap32 (s.currentWorkers - 1) = _
        rw [hwrap, hcur]
        push_cast [hn]
        omega
      have hidx : (s.workers.length : Int) - 1 - 1 = (s'.workers.length : Int) - 1 := by
        rw [hlen']
        push_cast [hn]
        omega
      rw [hidx]
      obtain ⟨hW, hC, hR⟩ := ih s' hcur' (by omega) (by rw [hlen']; omega)
      have h1 : s'.workers.length - k = s.workers.length - (k + 1) := by
        rw [hlen']
        omega
      refine ⟨?_, ?_, ?_⟩
      · rw [hW, h1, hsw, List.take_take]
        have h2 : (s.workers.length - (k + 1)) ⊓ (s.workers.length - 1)
            = s.workers.length - (k + 1) := by
          refine inf_eq_left.mpr ?_
          omega
        rw [h2]
      · rw [hC, h1]
      · rw [hR, h1, hsw, hsr]
        have hsplit : s.workers.drop (s.workers.length - (k + 1))
            = (s.workers.take (s.workers.length - 1)).drop (s.workers.length - (k + 1))
              ++ [s.workers.getD (s.workers.length - 1) dummyWorker] := by
          refine drop_eq_drop_take_concat s.workers dummyWorker s.workers.length
            (s.workers.length - (k + 1)) rfl hn (by omega)
        rw [hsplit, List.map_append, List.reverse_append, hb, htoNat]
        simp

theorem clampTarget_bounds (s : PoolState) (t0 : Int) (h : s.minWorkers ≤ s.maxWorkers) :
    s.minWorkers ≤ clampTarget s t0 ∧ clampTarget s t0 ≤ s.maxWorkers := by
  unfold clampTarget
  split_ifs <;> omega

/-- `quickScaleUp` at or above `maxWorkers` is a no-op. -/
theorem quickScaleUp_noop (s : PoolState) (h : s.currentWorkers ≥ s.maxWorkers) :
    quickScaleUp s = s := by
  simp only [quickScaleUp]
  rw [if_pos h]

/-- Everything `quickScaleUp` leaves untouched. -/
theorem quickScaleUp_fields (s : PoolState) :
    (quickScaleUp s).minWorkers = s.minWorkers ∧
    (quickScaleUp s).maxWorkers = s.maxWorkers ∧
    (quickScaleUp s).queue = s.queue ∧
    (quickScaleUp s).queueCap = s.queueCap ∧
    (quickScaleUp s).queueClosed = s.queueClosed ∧
    (quickScaleUp s).workerLoads = s.workerLoads ∧
    (quickScaleUp s).metricsQueueUsage = s.metricsQueueUsage ∧
    (quickScaleUp s).metricsIdleWorkers = s.metricsIdleWorkers ∧
    (quickScaleUp s).adjustThreshold = s.adjustThreshold ∧
    (quickScaleUp s).retired = s.retired := by
  simp only [quickScaleUp]
  by_cases h : s.currentWorkers ≥ s.maxWorkers
  · rw [if_pos h]
    exact ⟨rfl, rfl, rfl, rfl, rfl, rfl, rfl, rfl, rfl, rfl⟩
  · rw [if_neg h]
    obtain ⟨h1, h2, h3, h4, h5, h6, h7, h8, h9, h10, _⟩ := growWorkers_fields
      ((if goTrunc12 s.currentWorkers > s.maxWorkers then s.maxWorkers
        else goTrunc12 s.currentWorkers) - s.currentWorkers).toNat s s.currentWorkers
    exact ⟨h1, h2, h3, h4, h5, h6, h7, h8, h9, h10⟩

/-- Below `maxWorkers`, `quickScaleUp` grows to `int(1.2 * current)` clamped
above by `maxWorkers`, creating exactly the workers with the next ids. -/
theorem quickScaleUp_char (s : PoolState) (tv : Int) (hWF : WF s)
    (h : s.currentWorkers < s.maxWorkers)
    (htv : tv = if goTrunc12 s.currentWorkers > s.maxWorkers then s.maxWorkers
                else goTrunc12 s.currentWorkers) :
    (quickScaleUp s).currentWorkers = tv ∧
    (quickScaleUp s).workers = s.workers ++ (List.range (tv - s.currentWorkers).toNat).map
        (fun j : Nat => newWorker (s.currentWorkers + (j : Int))) := by
  obtain ⟨hmin, hminmax, hmax, hcl, hcu, hlen, hll, hlr, hth⟩ := hWF
  have hc0 : 0 ≤ s.currentWorkers := by omega
  have h12 : s.currentWorkers ≤ goTrunc12 s.currentWorkers := goTrunc12_ge hc0
  have htv1 : s.currentWorkers ≤ tv := by rw [htv]; split_ifs <;> omega
  have htv2 : tv ≤ s.maxWorkers := by rw [htv]; split_ifs <;> omega
  simp only [quickScaleUp]
  rw [if_neg (by omega), ← htv]
  constructor
  · rw [growWorkers_current _ _ _ (by omega) (by omega)]
    omega
  · exact (growWorkers_fields _ _ _).2.2.2.2.2.2.2.2.2.2

/-- `quickScaleUp` preserves the pool invariant. -/
theorem WF_quickScaleUp (s : PoolState) (hWF : WF s) : WF (quickScaleUp s) := by
  by_cases h : s.currentWorkers ≥ s.maxWorkers
  · rw [quickScaleUp_noop s h]
    exact hWF
  · obtain ⟨hcur, hwork⟩ := quickScaleUp_char s _ hWF (by omega) rfl
    obtain ⟨f1, f2, f3, f4, f5, f6, f7, f8, f9, f10⟩ := quickScaleUp_fields s
    obtain ⟨hmin, hminmax, hmax, hcl, hcu, hlen, hll, hlr, hth⟩ := hWF
    have hc0 : 0 ≤ s.currentWorkers := by omega
    have h12 : s.currentWorkers ≤ goTrunc12 s.currentWorkers := goTrunc12_ge hc0
    have htv1 : s.currentWorkers ≤ (if goTrunc12 s.currentWorkers > s.maxWorkers
        then s.maxWorkers else goTrunc12 s.currentWorkers) := by split_ifs <;> omega
    have htv2 : (if goTrunc12 s.currentWorkers > s.maxWorkers then s.maxWorkers
        else goTrunc12 s.currentWorkers) ≤ s.maxWorkers := by split_ifs <;> omega
    refine ⟨?_, ?_, ?_, ?_, ?_, ?_, ?_, ?_, ?_⟩
    · rw [f1]; exact hmin
    · rw [f1, f2]; exact hminmax
    · rw [f2]; exact hmax
    · rw [f1, hcur]; omega
    · rw [f2, hcur]; omega
    · rw [hcur, hwork]
      simp only [List.length_append, List.length_map, List.length_range]
      push_cast
      omega
    · rw [f2, f6]; exact hll
    · rw [f6]; exact hlr
    · rw [f9]; exact hth

/-- `NewWorkPool` establishes the invariant under the documented constructor
constraints (bounded to the `int32` range). -/
theorem WF_NewWorkPool (minW maxW : Int) (q : Nat) (h1 : 0 < minW) (h2 : minW ≤ maxW)
    (h3 : maxW < 2147483648) : WF (NewWorkPool minW maxW q) := by
  have hwr : wrap32 minW = minW := wrap32_eq_self (by omega) (by omega)
  refine ⟨h1, h2, h3, ?_, ?_, ?_, ?_, ?_, rfl⟩
  · show minW ≤ wrap32 minW
    omega
  · show wrap32 minW ≤ maxW
    omega
  · simp only [NewWorkPool, List.length_map, List.length_range]
    rw [hwr]
    omega
  · simp only [NewWorkPool, List.length_replicate]
    omega
  · intro v hv
    have := List.eq_of_mem_replicate hv
    omega

/-- Full characterisation of one `adjustWorkerCount` call under the pool
invariant, in terms of the clamped target `tv`. -/
theorem adjustWorkerCount_char (s : PoolState) (tv : Int) (hWF : WF s)
    (htv : tv = clampTarget s (if growCond s then goTrunc12 s.currentWorkers
      else if shrinkCond s then goTrunc08 s.currentWorkers else s.currentWorkers)) :
    (adjustWorkerCount s).currentWorkers = tv ∧
    (s.currentWorkers ≤ tv →
      (adjustWorkerCount s).workers = s.workers ++ (List.range (tv - s.currentWorkers).toNat).map
          (fun j : Nat => newWorker (s.currentWorkers + (j : Int))) ∧
      (adjustWorkerCount s).retired = s.retired) ∧
    (tv < s.currentWorkers →
      (adjustWorkerCount s).workers = s.workers.take tv.toNat ∧
      (adjustWorkerCount s).retired
        = s.retired ++ ((s.workers.drop tv.toNat).map stopWorker).reverse) := by
  obtain ⟨hmin, hminmax, hmax, hcl, hcu, hlen, hll, hlr, hth⟩ := hWF
  obtain ⟨hb1, hb2⟩ := clampTarget_bounds s (if growCond s then goTrunc12 s.currentWorkers
      else if shrinkCond s then goTrunc08 s.currentWorkers else s.currentWorkers) hminmax
  rw [← htv] at hb1 hb2
  simp only [adjustWorkerCount, ← htv]
  by_cases h1 : tv = s.currentWorkers
  · rw [if_pos h1]
    refine ⟨h1.symm, fun _ => ⟨?_, rfl⟩, fun hc => absurd h1 (by omega)⟩
    rw [h1]
    simp
  · rw [if_neg h1]
    by_cases h2 : tv > s.currentWorkers
    · rw [if_pos h2]
      refine ⟨?_, fun _ => ⟨?_, ?_⟩, fun hc => absurd h2 (by omega)⟩
      · rw [growWorkers_current _ _ _ (by omega) (by omega)]
        omega
      · exact (growWorkers_fields _ _ _).2.2.2.2.2.2.2.2.2.2
      · exact (growWorkers_fields _ _ _).2.2.2.2.2.2.2.2.2.1
    · rw [if_neg h2]
      have hlt : tv < s.currentWorkers := by omega
      refine ⟨?_, fun hc => absurd hc (by omega), fun _ => ⟨?_, ?_⟩⟩
      all_goals
        rw [show s.currentWorkers - 1 = (s.workers.length : Int) - 1 from by omega]
        rw [show (s.currentWorkers - tv).toNat = s.currentWorkers.toNat - tv.toNat from by omega]
        obtain ⟨hW, hC, hR⟩ := shrinkWorkers_spec (s.currentWorkers.toNat - tv.toNat) s hlen
          (by omega) (by omega)
      · rw [hC]
        omega
      · rw [hW, show s.workers.length - (s.currentWorkers.toNat - tv.toNat) = tv.toNat
          from by omega]
      · rw [hR, show s.workers.length - (s.currentWorkers.toNat - tv.toNat) = tv.toNat
          from by omega]

/-- Everything `adjustWorkerCount` leaves untouched. -/
theorem adjustWorkerCount_fields (s : PoolState) :
    (adjustWorkerCount s).minWorkers = s.minWorkers ∧
    (adjustWorkerCount s).maxWorkers = s.maxWorkers ∧
    (adjustWorkerCount s).queue = s.queue ∧
    (adjustWorkerCount s).queueCap = s.queueCap ∧
    (adjustWorkerCount s).queueClosed = s.queueClosed ∧
    (adjustWorkerCount s).workerLoads = s.workerLoads ∧
    (adjustWorkerCount s).metricsQueueUsage = s.metricsQueueUsage ∧
    (adjustWorkerCount s).metricsIdleWorkers = s.metricsIdleWorkers ∧
    (adjustWorkerCount s).adjustThreshold = s.adjustThreshold := by
  simp only [adjustWorkerCount]
  split_ifs <;>
    first
      | exact ⟨rfl, rfl, rfl, rfl, rfl, rfl, rfl, rfl, rfl⟩
      | (obtain ⟨g1, g2, g3, g4, g5, g6, g7, g8, g9, _, _⟩ := growWorkers_fields _ _ _
         exact ⟨g1, g2, g3, g4, g5, g6, g7, g8, g9⟩)
      | (obtain ⟨k1, k2, k3, k4, k5, k6, k7, k8, k9⟩ := shrinkWorkers_fields _ _ _
         exact ⟨k1, k2, k3, k4, k5, k6, k7, k8, k9⟩)

/-- `adjustWorkerCount` preserves the pool invariant. -/
theorem WF_adjustWorkerCount (s : PoolState) (hWF : WF s) : WF (adjustWorkerCount s) := by
  obtain ⟨hcur, hgrow, hshrink⟩ := adjustWorkerCount_char s _ hWF rfl
  obtain ⟨f1, f2, f3, f4, f5, f6, f7, f8, f9⟩ := adjustWorkerCount_fields s
  obtain ⟨hmin, hminmax, hmax, hcl, hcu, hlen, hll, hlr, hth⟩ := hWF
  obtain ⟨hb1, hb2⟩ := clampTarget_bounds s (if growCond s then goTrunc12 s.currentWorkers
      else if shrinkCond s then goTrunc08 s.currentWorkers else s.currentWorkers) hminmax
  refine ⟨?_, ?_, ?_, ?_, ?_, ?_, ?_, ?_, ?_⟩
  · rw [f1]; exact hmin
  · rw [f1, f2]; exact hminmax
  · rw [f2]; exact hmax
  · rw [f1, hcur]; exact hb1
  · rw [f2, hcur]; exact hb2
  · rw [hcur]
    by_cases h : s.currentWorkers ≤ clampTarget s (if growCond s then goTrunc12 s.currentWorkers
        else if shrinkCond s then goTrunc08 s.currentWorkers else s.currentWorkers)
    · obtain ⟨hw, _⟩ := hgrow h
      rw [hw]
      simp only [List.length_append, List.length_map, List.length_range]
      push_cast
      omega
    · obtain ⟨hw, _⟩ := hshrink (by omega)
      rw [hw, List.length_take]
      have : (clampTarget s (if growCond s then goTrunc12 s.currentWorkers
          else if shrinkCond s then goTrunc08 s.currentWorkers
          else s.currentWorkers)).toNat ⊓ s.workers.length
          = (clampTarget s (if growCond s then goTrunc12 s.currentWorkers
          else if shrinkCond s then goTrunc08 s.currentWorkers
          else s.currentWorkers)).toNat := by
        refine inf_eq_left.mpr ?_
        omega
      rw [this]
      omega
  · rw [f2, f6]; exact hll
  · rw [f6]; exact hlr
  · rw [f9]; exact hth

/-- Everything a successful handoff leaves untouched (up to length for the
two parallel arrays). -/
theorem deliverTo_fields (s : PoolState) (i : Nat) (t : PoolTask) :
    (deliverTo s i t).minWorkers = s.minWorkers ∧
    (deliverTo s i t).maxWorkers = s.maxWorkers ∧
    (deliverTo s i t).currentWorkers = s.currentWorkers ∧
    (deliverTo s i t).queue = s.queue ∧
    (deliverTo s i t).queueCap = s.queueCap ∧
    (deliverTo s i t).queueClosed = s.queueClosed ∧
    (deliverTo s i t).workers.length = s.workers.length ∧
    (deliverTo s i t).workerLoads.length = s.workerLoads.length ∧
    (deliverTo s i t).metricsQueueUsage = s.metricsQueueUsage ∧
    (deliverTo s i t).metricsIdleWorkers = s.metricsIdleWorkers ∧
    (deliverTo s i t).adjustThreshold = s.adjustThreshold ∧
    (deliverTo s i t).retired = s.retired := by
  unfold deliverTo
  cases h : s.workers.get? i with
  | none => exact ⟨rfl, rfl, rfl, rfl, rfl, rfl, rfl, rfl, rfl, rfl, rfl, rfl⟩
  | some w =>
      refine ⟨rfl, rfl, rfl, rfl, rfl, rfl, ?_, ?_, rfl, rfl, rfl, rfl⟩
      · exact List.length_set s.workers i _
      · exact List.length_set s.workerLoads i _

/-- A handoff keeps every load counter in the `int32` range. -/
theorem deliverTo_loads_range (s : PoolState) (i : Nat) (t : PoolTask)
    (hlr : ∀ v ∈ s.workerLoads, -2147483648 ≤ v ∧ v < 2147483648) :
    ∀ v ∈ (deliverTo s i t).workerLoads, -2147483648 ≤ v ∧ v < 2147483648 := by
  unfold deliverTo
  cases h : s.workers.get? i with
  | none => exact hlr
  | some w =>
      intro v hv
      rcases List.mem_or_eq_of_mem_set hv with hmem | hset
      · exact hlr v hmem
      · rw [hset]
        exact wrap32_range _

/-- A successful handoff preserves the pool invariant. -/
theorem WF_deliverTo (s : PoolState) (i : Nat) (t : PoolTask) (hWF : WF s) :
    WF (deliverTo s i t) := by
  obtain ⟨h1, h2, h3, h4, h5, h6, h7, h8, h9⟩ := hWF
  obtain ⟨f1, f2, f3, f4, f5, f6, f7, f8, f9, f10, f11, f12⟩ := deliverTo_fields s i t
  refine ⟨?_, ?_, ?_, ?_, ?_, ?_, ?_, ?_, ?_⟩
  · rw [f1]; exact h1
  · rw [f1, f2]; exact h2
  · rw [f2]; exact h3
  · rw [f1, f3]; exact h4
  · rw [f2, f3]; exact h5
  · rw [f3, f7]; exact h6
  · rw [f2, f8]; exact h7
  · exact deliverTo_loads_range s i t h8
  · rw [f11]; exact h9

/-- `handleOverload` preserves the pool invariant. -/
theorem WF_handleOverload (s : PoolState) (t : PoolTask) (acc : Nat → Bool) (hWF : WF s) :
    WF (handleOverload s t acc).1 := by
  have hWF1 : WF (if fgt s.metricsQueueUsage s.adjustThreshold then quickScaleUp s else s) := by
    split_ifs
    · exact WF_quickScaleUp s hWF
    · exact hWF
  simp only [handleOverload]
  cases hfa : firstAccepting
      (if fgt s.metricsQueueUsage s.adjustThreshold then quickScaleUp s
       else s).workers.length acc with
  | none => simpa [hfa] using hWF1
  | some i =>
      simp only [hfa]
      exact WF_deliverTo _ i t hWF1

/-- One dispatch-loop iteration preserves the pool invariant. -/
theorem WF_dispatchStep (s : PoolState) (t : PoolTask) (acc1 acc2 : Nat → Bool) (hWF : WF s) :
    WF (dispatchStep s t acc1 acc2).1 := by
  simp only [dispatchStep]
  split_ifs
  · exact WF_deliverTo _ _ t hWF
  · exact WF_handleOverload s t acc2 hWF
  · exact WF_handleOverload s t acc2 hWF
  · exact WF_handleOverload s t acc2 hWF

/-- `stop()` preserves the pool invariant. -/
theorem WF_stopPool (s : PoolState) (hWF : WF s) : WF (stopPool s) := by
  obtain ⟨h1, h2, h3, h4, h5, h6, h7, h8, h9⟩ := hWF
  refine ⟨h1, h2, h3, h4, h5, ?_, h7, h8, h9⟩
  show s.currentWorkers = ((s.workers.map stopWorker).length : Int)
  rw [List.length_map]
  exact h6

/-- Every pool operation preserves the pool invariant. -/
theorem WF_applyOp (s : PoolState) (op : PoolOp) (hWF : WF s) : WF (applyOp s op) := by
  cases op with
  | dispatchOp acc1 acc2 =>
      simp only [applyOp]
      cases hq : s.queue with
      | nil => exact hWF
      | cons t rest => exact WF_dispatchStep _ t acc1 acc2 hWF
  | submitOp t =>
      simp only [applyOp, submit]
      split_ifs <;> exact hWF
  | tick => exact WF_adjustWorkerCount (updateMetrics s) hWF
  | stopOp => exact WF_stopPool s hWF

/-- The pool invariant holds in every reachable state. -/
theorem WF_runOps (s : PoolState) (ops : List PoolOp) (hWF : WF s) : WF (runOps s ops) := by
  induction ops generalizing s with
  | nil => exact hWF
  | cons op rest ih => exact ih (applyOp s op) (WF_applyOp s op hWF)

/-- The running-strict-minimum scan of `selectWorker`, freed of the
break bookkeeping (it operates on the already-truncated prefix). -/
def scanMin : List Int → Nat → Int → Int → Int
  | [], _, _, sel => sel
  | a :: rest, i, m, sel =>
      if a < m then scanMin rest (i + 1) a (i : Int) else scanMin rest (i + 1) m sel

theorem selectWorkerAux_eq_scanMin : ∀ (l : List Int) (i n : Nat) (m sel : Int),
    selectWorkerAux n l i m sel = scanMin (l.take (n - i)) i m sel := by
  intro l
  induction l with
  | nil => intro i n m sel; simp [selectWorkerAux, scanMin]
  | cons a rest ih =>
      intro i n m sel
      by_cases h : n ≤ i
      · have h0 : n - i = 0 := by omega
        rw [h0]
        simp [selectWorkerAux, scanMin, if_pos h]
      · have h2 : n - i = (n - (i + 1)) + 1 := by omega
        rw [h2, List.take_succ_cons]
        simp only [selectWorkerAux, scanMin, if_neg h]
        by_cases ha : a < m
        · rw [if_pos ha, if_pos ha, ih]
        · rw [if_neg ha, if_neg ha, ih]

theorem scanMin_of_all_ge : ∀ (l : List Int) (i : Nat) (m sel : Int),
    (∀ a ∈ l, m ≤ a) → scanMin l i m sel = sel := by
  intro l
  induction l with
  | nil => intro i m sel _; rfl
  | cons a rest ih =>
      intro i m sel hall
      have ha : ¬ a < m := not_lt.mpr (hall a (List.mem_cons_self a rest))
      simp only [scanMin, if_neg ha]
      exact ih (i + 1) m sel fun b hb => hall b (List.mem_cons_of_mem a hb)

theorem scanMin_argmin : ∀ (l : List Int) (i : Nat) (m sel : Int),
    (∃ a ∈ l, a < m) →
    ∃ j : Nat, j < l.length ∧ scanMin l i m sel = ((i + j : Nat) : Int) ∧
      l.getD j 0 < m ∧
      (∀ k, k < l.length → l.getD j 0 ≤ l.getD k 0) ∧
      (∀ k, k < j → l.getD j 0 < l.getD k 0) := by
  intro l
  induction l with
  | nil => intro i m sel h; simp at h
  | cons a rest ih =>
      intro i m sel hex
      by_cases ha : a < m
      · simp only [scanMin, if_pos ha]
        by_cases hall : ∀ b ∈ rest, a ≤ b
        · refine ⟨0, by simp, ?_, ha, ?_, fun k hk => absurd hk (by omega)⟩
          · rw [scanMin_of_all_ge rest (i + 1) a (i : Int) hall]
            norm_num
          · intro k hk
            match k with
            | 0 => exact le_refl _
            | k + 1 =>
                simp only [List.getD_cons_zero, List.getD_cons_succ]
                have hmem : rest.getD k 0 ∈ rest :=
                  List.getD_eq_getElem rest 0 (by simpa using hk) ▸
                    List.getElem_mem (l := rest) (by simpa using hk)
                exact hall _ hmem
        · push_neg at hall
          obtain ⟨b, hb, hba⟩ := hall
          obtain ⟨j, hj1, hj2, hj3, hj4, hj5⟩ := ih (i + 1) a (i : Int) ⟨b, hb, hba⟩
          refine ⟨j + 1, by simpa using hj1, ?_, ?_, ?_, ?_⟩
          · rw [hj2]
            refine congrArg _ ?_
            omega
          · simp only [List.getD_cons_succ]
            exact lt_trans hj3 ha
          · intro k hk
            match k with
            | 0 =>
                simp only [List.getD_cons_succ, List.getD_cons_zero]
                exact le_of_lt hj3
            | k + 1 =>
                simp only [List.getD_cons_succ]
                exact hj4 k (by simpa using hk)
          · intro k hk
            match k with
            | 0 =>
                simp only [List.getD_cons_succ, List.getD_cons_zero]
                exact hj3
            | k + 1 =>
                simp only [List.getD_cons_succ]
                exact hj5 k (by omega)
      · simp only [scanMin, if_neg ha]
        have hm : m ≤ a := not_lt.mp ha
        obtain ⟨b, hb, hbm⟩ := hex
        have hbrest : b ∈ rest := by
          rcases List.mem_cons.mp hb with h0 | h0
          · exact absurd (h0 ▸ hbm) ha
          · exact h0
        obtain ⟨j, hj1, hj2, hj3, hj4, hj5⟩ := ih (i + 1) m sel ⟨b, hbrest, hbm⟩
        refine ⟨j + 1, by simpa using hj1, ?_, ?_, ?_, ?_⟩
        · rw [hj2]
          refine congrArg _ ?_
          omega
        · simpa only [List.getD_cons_succ] using hj3
        · intro k hk
          match k with
          | 0 =>
              simp only [List.getD_cons_succ, List.getD_cons_zero]
              exact le_of_lt (lt_of_lt_of_le hj3 hm)
          | k + 1 =>
              simp only [List.getD_cons_succ]
              exact hj4 k (by simpa using hk)
        · intro k hk
          match k with
          | 0 =>
              simp only [List.getD_cons_succ, List.getD_cons_zero]
              exact lt_of_lt_of_le hj3 hm
          | k + 1 =>
              simp only [List.getD_cons_succ]
              exact hj5 k (by omega)

/-- Behaviour of `selectWorker` on the scanned prefix
`L = workerLoads[0 : len(workers)]`: when some scanned counter is below the
`math.MaxInt32` sentinel it returns the first index attaining the minimum;
when every scanned counter equals the sentinel the scan never fires and it
returns `-1`. -/
theorem selectWorker_spec (s : PoolState) (hne : s.workers.length ≠ 0) :
    ((∃ a ∈ s.workerLoads.take s.workers.length, a < int32Max) →
      ∃ j : Nat, j < (s.workerLoads.take s.workers.length).length ∧
        selectWorker s = (j : Int) ∧
        (s.workerLoads.take s.workers.length).getD j 0 < int32Max ∧
        (∀ k, k < (s.workerLoads.take s.workers.length).length →
          (s.workerLoads.take s.workers.length).getD j 0
            ≤ (s.workerLoads.take s.workers.length).getD k 0) ∧
        (∀ k, k < j → (s.workerLoads.take s.workers.length).getD j 0
            < (s.workerLoads.take s.workers.length).getD k 0)) ∧
    ((∀ a ∈ s.workerLoads.take s.workers.length, int32Max ≤ a) → selectWorker s = -1) := by
  have hsel : selectWorker s
      = scanMin (s.workerLoads.take s.workers.length) 0 int32Max (-1) := by
    unfold selectWorker
    rw [if_neg hne, selectWorkerAux_eq_scanMin]
    norm_num
  constructor
  · intro hex
    obtain ⟨j, hj1, hj2, hj3, hj4, hj5⟩ :=
      scanMin_argmin (s.workerLoads.take s.workers.length) 0 int32Max (-1) hex
    refine ⟨j, hj1, ?_, hj3, hj4, hj5⟩
    rw [hsel, hj2]
    norm_num
  · intro hall
    rw [hsel, scanMin_of_all_ge _ _ _ _ hall]

theorem firstAcceptingAux_spec (acc : Nat → Bool) : ∀ (k i : Nat),
    (∀ j, firstAcceptingAux acc i k = some j →
      i ≤ j ∧ j < i + k ∧ acc j = true ∧ ∀ m, i ≤ m → m < j → acc m = false) ∧
    (firstAcceptingAux acc i k = none → ∀ m, i ≤ m → m < i + k → acc m = false) := by
  intro k
  induction k with
  | zero =>
      intro i
      refine ⟨fun j h => by simp [firstAcceptingAux] at h, fun _ m h1 h2 => by omega⟩
  | succ k ih =>
      intro i
      constructor
      · intro j h
        by_cases hi : acc i
        · simp only [firstAcceptingAux, if_pos hi] at h
          obtain rfl : i = j := by simpa using h
          exact ⟨le_refl _, by omega, hi, fun m h1 h2 => by omega⟩
        · simp only [firstAcceptingAux, if_neg hi] at h
          obtain ⟨g1, g2, g3, g4⟩ := (ih (i + 1)).1 j h
          refine ⟨by omega, by omega, g3, ?_⟩
          intro m h1 h2
          rcases Nat.eq_or_lt_of_le h1 with h0 | h0
          · rw [← h0]
            simpa using hi
          · exact g4 m (by omega) h2
      · intro h m h1 h2
        by_cases hi : acc i
        · simp [firstAcceptingAux, if_pos hi] at h
        · simp only [firstAcceptingAux, if_neg hi] at h
          rcases Nat.eq_or_lt_of_le h1 with h0 | h0
          · rw [← h0]
            simpa using hi
          · exact (ih (i + 1)).2 h m (by omega) (by omega)

/-- The overload re-scan takes the first worker whose non-blocking send
succeeds. -/
theorem firstAccepting_some (n : Nat) (acc : Nat → Bool) (j : Nat)
    (h : firstAccepting n acc = some j) :
    j < n ∧ acc j = true ∧ ∀ m, m < j → acc m = false := by
  obtain ⟨g1, g2, g3, g4⟩ := (firstAcceptingAux_spec acc n 0).1 j h
  exact ⟨by omega, g3, fun m hm => g4 m (by omega) hm⟩

/-- When the re-scan finds nobody, every live worker refused the handoff. -/
theorem firstAccepting_none (n : Nat) (acc : Nat → Bool)
    (h : firstAccepting n acc = none) : ∀ m, m < n → acc m = false := by
  intro m hm
  exact (firstAcceptingAux_spec acc n 0).2 h m (by omega) (by omega)

/-- A successful handoff bumps exactly the chosen slot's load counter. -/
theorem deliverTo_loads_self (s : PoolState) (i : Nat) (t : PoolTask)
    (hw : i < s.workers.length) (hl : i < s.workerLoads.length) :
    (deliverTo s i t).workerLoads.getD i 0 = wrap32 (s.workerLoads.getD i 0 + 1) := by
  unfold deliverTo
  cases h : s.workers.get? i with
  | none =>
      rw [List.get?_eq_getElem?, List.getElem?_eq_getElem hw] at h
      exact absurd h (by simp)
  | some w => exact getD_set_self s.workerLoads i _ 0 hl

/-- A successful handoff leaves every other load counter unchanged. -/
theorem deliverTo_loads_ne (s : PoolState) (i : Nat) (t : PoolTask) (j : Nat) (hne : j ≠ i) :
    (deliverTo s i t).workerLoads.getD j 0 = s.workerLoads.getD j 0 := by
  unfold deliverTo
  cases h : s.workers.get? i with
  | none => rfl
  | some w => exact getD_set_ne s.workerLoads i j _ 0 (fun hc => hne hc.symm)

/-- A successful handoff appends the task to exactly the chosen worker's
inbox. -/
theorem deliverTo_inbox (s : PoolState) (i : Nat) (t : PoolTask) (hw : i < s.workers.length) :
    ((deliverTo s i t).workers.getD i dummyWorker).inbox
      = (s.workers.getD i dummyWorker).inbox ++ [t] := by
  unfold deliverTo
  cases h : s.workers.get? i with
  | none =>
      rw [List.get?_eq_getElem?, List.getElem?_eq_getElem hw] at h
      exact absurd h (by simp)
  | some w =>
      have hwv : w = s.workers.getD i dummyWorker := by
        rw [List.get?_eq_getElem?, List.getElem?_eq_getElem hw] at h
        rw [List.getD_eq_getElem s.workers dummyWorker hw]
        exact (Option.some.injEq _ _ ▸ h).symm
      rw [getD_set_self s.workers i _ dummyWorker hw, hwv]

theorem getD_eq_default {α} (l : List α) (n : Nat) (d : α) (h : l.length ≤ n) :
    l.getD n d = d := by
  rw [List.getD_eq_getElem?_getD, List.getElem?_eq_none h]
  rfl

/-- Every load-counter read (in or out of range) lies in the `int32` range
under the invariant. -/
theorem loads_getD_range (s : PoolState) (hWF : WF s) (j : Nat) :
    -2147483648 ≤ s.workerLoads.getD j 0 ∧ s.workerLoads.getD j 0 < 2147483648 := by
  by_cases hj : j < s.workerLoads.length
  · refine hWF.2.2.2.2.2.2.2.1 _ ?_
    rw [List.getD_eq_getElem _ _ hj]
    exact List.getElem_mem hj
  · rw [getD_eq_default _ _ _ (by omega)]
    omega

/-- A handoff changes each load-counter slot by either nothing or one
`int32` increment. -/
theorem deliverTo_loads_cases (s : PoolState) (i : Nat) (t : PoolTask) (j : Nat) :
    (deliverTo s i t).workerLoads.getD j 0 = s.workerLoads.getD j 0 ∨
    (deliverTo s i t).workerLoads.getD j 0 = wrap32 (s.workerLoads.getD j 0 + 1) := by
  by_cases hj : j = i
  · subst hj
    by_cases hl : j < s.workerLoads.length
    · by_cases hw : j < s.workers.length
      · right
        exact deliverTo_loads_self s j t hw hl
      · left
        unfold deliverTo
        cases h : s.workers.get? j with
        | none => rfl
        | some w =>
            rw [List.get?_eq_getElem?, List.getElem?_eq_none (by omega)] at h
            exact absurd h (by simp)
    · left
      have hlen := (deliverTo_fields s j t).2.2.2.2.2.2.2.1
      rw [getD_eq_default _ _ _ (by omega), getD_eq_default _ _ _ (by omega)]
  · left
    exact deliverTo_loads_ne s i t j hj

/-- `handleOverload` changes each load-counter slot by either nothing or one
`int32` increment, and never changes the array length. -/
theorem handleOverload_loads_cases (s : PoolState) (t : PoolTask) (acc : Nat → Bool) (j : Nat) :
    ((handleOverload s t acc).1.workerLoads.getD j 0 = s.workerLoads.getD j 0 ∨
     (handleOverload s t acc).1.workerLoads.getD j 0 = wrap32 (s.workerLoads.getD j 0 + 1)) ∧
    (handleOverload s t acc).1.workerLoads.length = s.workerLoads.length := by
  have hq : (if fgt s.metricsQueueUsage s.adjustThreshold then quickScaleUp s
      else s).workerLoads = s.workerLoads := by
    split_ifs
    · exact (quickScaleUp_fields s).2.2.2.2.2.1
    · rfl
  simp only [handleOverload]
  cases hfa : firstAccepting
      (if fgt s.metricsQueueUsage s.adjustThreshold then quickScaleUp s
       else s).workers.length acc with
  | none =>
      simp only [hfa]
      rw [hq]
      exact ⟨Or.inl rfl, rfl⟩
  | some i =>
      simp only [hfa]
      constructor
      · rcases deliverTo_loads_cases (if fgt s.metricsQueueUsage s.adjustThreshold
            then quickScaleUp s else s) i t j with h | h
        · left
          rw [h, hq]
        · right
          rw [h, hq]
      · rw [(deliverTo_fields _ i t).2.2.2.2.2.2.2.1, hq]

/-- One dispatch-loop iteration changes each load-counter slot by either
nothing or one `int32` increment, and never changes the array length. -/
theorem dispatchStep_loads_cases (s : PoolState) (t : PoolTask) (acc1 acc2 : Nat → Bool)
    (j : Nat) :
    ((dispatchStep s t acc1 acc2).1.workerLoads.getD j 0 = s.workerLoads.getD j 0 ∨
     (dispatchStep s t acc1 acc2).1.workerLoads.getD j 0
        = wrap32 (s.workerLoads.getD j 0 + 1)) ∧
    (dispatchStep s t acc1 acc2).1.workerLoads.length = s.workerLoads.length := by
  simp only [dispatchStep]
  split_ifs
  · exact ⟨deliverTo_loads_cases s _ t j, (deliverTo_fields s _ t).2.2.2.2.2.2.2.1⟩
  · exact handleOverload_loads_cases s t acc2 j
  · exact handleOverload_loads_cases s t acc2 j
  · exact handleOverload_loads_cases s t acc2 j

/-- `minWorkers` and `maxWorkers` are never written after construction. -/
theorem applyOp_minmax (s : PoolState) (op : PoolOp) :
    (applyOp s op).minWorkers = s.minWorkers ∧ (applyOp s op).maxWorkers = s.maxWorkers := by
  cases op with
  | dispatchOp acc1 acc2 =>
      simp only [applyOp]
      cases hq : s.queue with
      | nil => exact ⟨rfl, rfl⟩
      | cons t rest =>
          simp only [dispatchStep]
          split_ifs
          · exact ⟨(deliverTo_fields _ _ t).1, (deliverTo_fields _ _ t).2.1⟩
          all_goals
            simp only [handleOverload]
            cases hfa : firstAccepting
                (if fgt ({ s with queue := rest } : PoolState).metricsQueueUsage
                    ({ s with queue := rest } : PoolState).adjustThreshold
                 then quickScaleUp { s with queue := rest }
                 else { s with queue := rest }).workers.length acc2 with
            | none =>
                simp only [hfa]
                split_ifs
                · exact ⟨(quickScaleUp_fields _).1, (quickScaleUp_fields _).2.1⟩
                · exact ⟨rfl, rfl⟩
            | some i =>
                simp only [hfa]
                refine ⟨?_, ?_⟩
                · rw [(deliverTo_fields _ i t).1]
                  split_ifs
                  · exact (quickScaleUp_fields _).1
                  · rfl
                · rw [(deliverTo_fields _ i t).2.1]
                  split_ifs
                  · exact (quickScaleUp_fields _).2.1
                  · rfl
  | submitOp t =>
      simp only [applyOp, submit]
      split_ifs <;> exact ⟨rfl, rfl⟩
  | tick =>
      exact ⟨(adjustWorkerCount_fields (updateMetrics s)).1,
        (adjustWorkerCount_fields (updateMetrics s)).2.1⟩
  | stopOp => exact ⟨rfl, rfl⟩

/-- `minWorkers` and `maxWorkers` are constant along every run. -/
theorem runOps_minmax (s : PoolState) (ops : List PoolOp) :
    (runOps s ops).minWorkers = s.minWorkers ∧ (runOps s ops).maxWorkers = s.maxWorkers := by
  induction ops generalizing s with
  | nil => exact ⟨rfl, rfl⟩
  | cons op rest ih =>
      obtain ⟨ha, hb⟩ := applyOp_minmax s op
      obtain ⟨hc, hd⟩ := ih (applyOp s op)
      exact ⟨hc.trans ha, hd.trans hb⟩

/-- The state predicate behind claim C10: with queue capacity 0 the queue
stays empty (an unbuffered send is a rendezvous), the occupancy metric is
its zero value or the NaN produced by `0.0/0.0`, and the threshold keeps
its default. -/
def ZeroCapInv (s : PoolState) : Prop :=
  s.queueCap = 0 ∧ s.queue = [] ∧
  (s.metricsQueueUsage = .val 0 ∨ s.metricsQueueUsage = .nan) ∧
  s.adjustThreshold = .val (mkRat 4 5)

theorem zeroCapInv_applyOp (s : PoolState) (op : PoolOp) (h : ZeroCapInv s) :
    ZeroCapInv (applyOp s op) := by
  obtain ⟨hcap, hque, hqu, hth⟩ := h
  cases op with
  | dispatchOp acc1 acc2 =>
      simp only [applyOp, hque]
      exact ⟨hcap, hque, hqu, hth⟩
  | submitOp t =>
      simp only [applyOp, submit]
      split_ifs with h1 h2
      · exact ⟨hcap, hque, hqu, hth⟩
      · rw [hcap] at h2
        omega
      · exact ⟨hcap, hque, hqu, hth⟩
  | tick =>
      have hnan : (updateMetrics s).metricsQueueUsage = .nan := by
        simp only [updateMetrics]
        rw [hque, hcap]
        rfl
      obtain ⟨f1, f2, f3, f4, f5, f6, f7, f8, f9⟩ := adjustWorkerCount_fields (updateMetrics s)
      show ZeroCapInv (adjustWorkerCount (updateMetrics s))
      refine ⟨?_, ?_, ?_, ?_⟩
      · rw [f4]
        exact hcap
      · rw [f3]
        exact hque
      · right
        rw [f7]
        exact hnan
      · rw [f9]
        exact hth
  | stopOp => exact ⟨hcap, hque, hqu, hth⟩

/-- No pool state satisfying `ZeroCapInv` can pass the cached-occupancy
threshold test: the metric is 0 or NaN, and both compare `false` against
the 0.8 threshold. -/
theorem zeroCapInv_no_trigger (s : PoolState) (h : ZeroCapInv s) :
    fgt s.metricsQueueUsage s.adjustThreshold = false := by
  obtain ⟨_, _, hqu, hth⟩ := h
  rw [hth]
  rcases hqu with h0 | h0 <;> rw [h0]
  · decide
  · rfl

theorem zeroCapInv_runOps (s : PoolState) (ops : List PoolOp) (h : ZeroCapInv s) :
    ZeroCapInv (runOps s ops) := by
  induction ops generalizing s with
  | nil => exact h
  | cons op rest ih => exact ih (applyOp s op) (zeroCapInv_applyOp s op h)

/-- The selection rule exactly as claim C6 words it: scan the load counters
over `[0, currentWorkers)` and return the first index attaining the minimum
value (`-1` when there is no worker).  Used only to exhibit where the code
deviates from the claim. -/
def specSelectWorker (s : PoolState) : Int :=
  match (s.workerLoads.take s.workers.length).min? with
  | none => -1
  | some m => ((s.workerLoads.take s.workers.length).indexOf m : Int)

/-- The periodic controller's target, spelled on the metrics a tick
freshly recomputes: occupancy `len(queue)/cap(queue)` and the
float64-computed idle value `1.0 - float64(totalLoad)/float64(len)`,
with grow to `int(1.2 c)` when occupancy exceeds the threshold and the
idle value is below the double literal `0.2`, shrink to `int(0.8 c)` when
occupancy is below `0.2` and the idle value exceeds the double literal
`0.8`, else keep. -/
def tickTarget (s : PoolState) : Int :=
  if fgt (fdiv ((s.queue.length : Int)) ((s.queueCap : Int))) s.adjustThreshold
      && flt (.val (idleValue (totalLoadOf s) ((s.workers.length : Int))))
        (.val float02) then
    goTrunc12 s.currentWorkers
  else if flt (fdiv ((s.queue.length : Int)) ((s.queueCap : Int))) (.val (mkRat 1 5))
      && fgt (.val (idleValue (totalLoadOf s) ((s.workers.length : Int))))
        (.val float08) then
    goTrunc08 s.currentWorkers
  else s.currentWorkers

/-- Inside a tick the cached metric fields seen by `adjustWorkerCount` are
the freshly recomputed ones, so its target is exactly `tickTarget`. -/
theorem tick_target_eq (s : PoolState) (hlen : 0 < s.workers.length) :
    (if growCond (updateMetrics s) then goTrunc12 (updateMetrics s).currentWorkers
     else if shrinkCond (updateMetrics s) then goTrunc08 (updateMetrics s).currentWorkers
     else (updateMetrics s).currentWorkers) = tickTarget s := by
  have hqu : (updateMetrics s).metricsQueueUsage
      = fdiv ((s.queue.length : Int)) ((s.queueCap : Int)) := rfl
  have hiw : (updateMetrics s).metricsIdleWorkers
      = .val (idleValue (totalLoadOf s) ((s.workers.length : Int))) := by
    simp only [updateMetrics]
    rw [if_pos hlen]
  have hcw : (updateMetrics s).currentWorkers = s.currentWorkers := rfl
  have hth : (updateMetrics s).adjustThreshold = s.adjustThreshold := rfl
  simp only [growCond, shrinkCond, tickTarget, hqu, hiw, hcw, hth]

/-- Claim C1 (code-bug evaluation).  The claim says a panicking Task can
never terminate the pool on any routing path, including the untracked
fallback.  On the worker-loop path the wrapper indeed converts the panic
into the distinguished error (second conjunct), but on the fallback path —
reached here in a well-formed freshly constructed pool whose single worker
is busy and whose cached occupancy metric is 0 — `handleOverload` runs the
raw task via `go t.Run(...)` with no wrapper, so the panic escapes the
goroutine and crashes the whole process (first conjunct). -/
theorem c1_fallback_runs_unwrapped_panic :
    (handleOverload (NewWorkPool 1 1 1) { run := .panicked ("boom") } (fun _ => false)).2.result
      = .fallbackRun (.processCrash ("boom")) ∧
    (∀ raw : String, workerExecute { run := .panicked ("boom") } raw
      = .completed (some (.wrap errTaskRunningPanic
          (panicMessage ("boom") (truncStack raw))))) :=
  ⟨rfl, fun _ => rfl⟩

/-- Claim C2 (code-bug evaluation).  The claim says submission after `stop()`
fails with an explicit rejection and must not panic.  The package exposes no
`Submit` wrapper: submitting is a send on `p.taskQueue`, which `stop()` has
closed, and a send on a closed channel panics in Go (first conjunct); the
panicking submission enqueues nothing, so no worker can ever receive the
task (second conjunct). -/
theorem c2_submit_after_stop_panics :
    submit (stopPool (NewWorkPool 1 1 1)) { run := .ok none }
      = .panicked ("send on closed channel") ∧
    applyOp (stopPool (NewWorkPool 1 1 1)) (.submitOp { run := .ok none })
      = stopPool (NewWorkPool 1 1 1) :=
  ⟨rfl, rfl⟩

/-- Claim C4 counterexample.  The claim quantifies over every pool with
`0 < minWorkers ≤ maxWorkers`.  At `minWorkers = maxWorkers = 2^31` the
constructor's `int32(minWorkers)` conversion wraps, so `currentWorkers`
starts at `-2^31`: construction does not set `currentWorkers = minWorkers`
and the invariant's lower bound is violated at the first observable point. -/
theorem c4_counterexample_int32_wrap :
    (NewWorkPool 2147483648 2147483648 0).currentWorkers = -2147483648 ∧
    ¬ ((NewWorkPool 2147483648 2147483648 0).minWorkers
        ≤ (NewWorkPool 2147483648 2147483648 0).currentWorkers) := by
  constructor
  · show wrap32 2147483648 = -2147483648
    decide
  · show ¬ ((2147483648 : Int) ≤ wrap32 2147483648)
    decide

/-- Claim C4 (amended to pools whose `maxWorkers` fits the `int32` counter,
`maxWorkers < 2^31`): construction sets `currentWorkers = minWorkers`, and
after any sequence of pool operations — dispatch iterations (with emergency
scale-up inside overload handling), scaling ticks, submissions, shutdown —
the invariant `minWorkers ≤ currentWorkers ≤ maxWorkers` holds. -/
theorem c4_amended_invariant (minW maxW : Int) (q : Nat) (ops : List PoolOp)
    (h1 : 0 < minW) (h2 : minW ≤ maxW) (h3 : maxW < 2147483648) :
    (NewWorkPool minW maxW q).currentWorkers = minW ∧
    minW ≤ (runOps (NewWorkPool minW maxW q) ops).currentWorkers ∧
    (runOps (NewWorkPool minW maxW q) ops).currentWorkers ≤ maxW := by
  have hWF := WF_runOps _ ops (WF_NewWorkPool minW maxW q h1 h2 h3)
  obtain ⟨hmm1, hmm2⟩ := runOps_minmax (NewWorkPool minW maxW q) ops
  have hmin0 : (NewWorkPool minW maxW q).minWorkers = minW := rfl
  have hmax0 : (NewWorkPool minW maxW q).maxWorkers = maxW := rfl
  refine ⟨?_, ?_, ?_⟩
  · show wrap32 minW = minW
    exact wrap32_eq_self (by omega) (by omega)
  · have := hWF.2.2.2.1
    rw [hmm1, hmin0] at this
    exact this
  · have := hWF.2.2.2.2.1
    rw [hmm2, hmax0] at this
    exact this

/-- Witness for the amended C4 at a concrete pool and operation sequence. -/
theorem c4_amended_invariant_witness :
    (NewWorkPool 1 3 2).currentWorkers = 1 ∧
    1 ≤ (runOps (NewWorkPool 1 3 2)
        [.submitOp { run := .ok none }, .tick,
         .dispatchOp (fun _ => true) (fun _ => true), .stopOp]).currentWorkers ∧
    (runOps (NewWorkPool 1 3 2)
        [.submitOp { run := .ok none }, .tick,
         .dispatchOp (fun _ => true) (fun _ => true), .stopOp]).currentWorkers ≤ 3 :=
  c4_amended_invariant 1 3 2
    [.submitOp { run := .ok none }, .tick,
     .dispatchOp (fun _ => true) (fun _ => true), .stopOp]
    (by decide) (by decide) (by decide)

/-- Claim C5: for every Task, the wrapper intercepts a panic during `Run`,
captures a stack trace of at most `panicBuffLen = 2048` bytes, and returns
the single distinguished error kind (`errors.Is`-matching
`errTaskRunningPanic`) whose message embeds both the panic value's
description and the truncated trace; a Task whose `Run` returns normally
has its error value passed through unchanged. -/
theorem c5_wrapper_contract (t : PoolTask) (raw : String) :
    (∀ e, t.run = .ok e → taskWrapperRun t raw = .ok e) ∧
    (∀ r, t.run = .panicked r →
      taskWrapperRun t raw
          = .ok (some (.wrap errTaskRunningPanic (panicMessage r (truncStack raw)))) ∧
      errorsIs (.wrap errTaskRunningPanic (panicMessage r (truncStack raw)))
          errTaskRunningPanic = true ∧
      (∃ a b : String, panicMessage r (truncStack raw) = a ++ r ++ b) ∧
      (∃ a b : String, panicMessage r (truncStack raw) = a ++ truncStack raw ++ b) ∧
      (truncStack raw).length ≤ panicBuffLen) := by
  constructor
  · intro e he
    unfold taskWrapperRun
    rw [he]
  · intro r hr
    refine ⟨?_, ?_, ?_, ?_, ?_⟩
    · unfold taskWrapperRun
      rw [hr]
    · simp [errorsIs, errTaskRunningPanic]
    · refine ⟨("[PANIC]:\x09"), ("\n") ++ truncStack raw ++ ("\n"), ?_⟩
      simp [panicMessage, String.append_assoc]
    · refine ⟨("[PANIC]:\x09") ++ r ++ ("\n"), ("\n"), ?_⟩
      simp [panicMessage, String.append_assoc]
    · show (raw.data.take panicBuffLen).length ≤ panicBuffLen
      rw [List.length_take]
      exact min_le_left _ _

/-- Witness for C5 on a concrete panicking task and a concrete normal task. -/
theorem c5_wrapper_contract_witness :
    taskWrapperRun { run := .panicked ("x") } ("st")
        = .ok (some (.wrap errTaskRunningPanic (panicMessage ("x") (truncStack ("st"))))) ∧
    taskWrapperRun { run := .ok (some (.base ("e"))) } ("st") = .ok (some (.base ("e"))) :=
  ⟨((c5_wrapper_contract { run := .panicked ("x") } ("st")).2 ("x") rfl).1,
   (c5_wrapper_contract { run := .ok (some (.base ("e"))) } ("st")).1 (some (.base ("e"))) rfl⟩

/-- The pool state of the C3 counterexample: a freshly built
`NewWorkPool(5, 10, 1)` whose queue has just received one task, while the
cached occupancy metric still holds its initial value 0 (the metrics ticker
has not run). -/
def c3State : PoolState := applyOp (NewWorkPool 5 10 1) (.submitOp { run := .ok none })

/-- Claim C3 counterexample.  In `c3State` the momentary queue occupancy is
`1/1 = 1 > 0.8` and the pool is below `maxWorkers`, so by the claim the
overload path must run the emergency scale-up synchronously (which would
bring the worker count from 5 to `int(1.2*5) = 6`, third conjunct).  The
code instead consults the stale cached metric (0), does not scale up, and
leaves the worker count at 5. -/
theorem c3_counterexample_stale_occupancy :
    fgt (fdiv ((c3State.queue.length : Int)) ((c3State.queueCap : Int)))
        c3State.adjustThreshold = true ∧
    c3State.currentWorkers < c3State.maxWorkers ∧
    (quickScaleUp c3State).workers.length = 6 ∧
    (handleOverload c3State { run := .ok none } (fun _ => false)).2.scaledUp = false ∧
    (handleOverload c3State { run := .ok none } (fun _ => false)).1.workers.length = 5 := by
  refine ⟨by decide, by decide, by decide, by decide, by decide⟩

/-- Claim C3 (amended: the occupancy test of step (1) reads the cached
`p.metrics.queueUsage` snapshot, not the occupancy at that moment).  In
order: (1) emergency scale-up runs synchronously exactly when the cached
metric exceeds the threshold; (2) the re-scan over the (possibly grown)
live workers hands the task to the first worker that accepts, incrementing
exactly that worker's load counter and appending the task to its inbox;
(3) the task is executed immediately and untracked exactly when every live
worker refuses, so every dequeued task is either handed to a worker or
executed — never dropped. -/
theorem c3_amended_overload_policy (s : PoolState) (t : PoolTask) (acc : Nat → Bool)
    (hWF : WF s) :
    (handleOverload s t acc).2.scaledUp = fgt s.metricsQueueUsage s.adjustThreshold ∧
    (∀ i, (handleOverload s t acc).2.result = .overloadHandedTo i →
      acc i = true ∧ (∀ m, m < i → acc m = false) ∧
      i < (if fgt s.metricsQueueUsage s.adjustThreshold then quickScaleUp s
           else s).workers.length ∧
      (handleOverload s t acc).1.workerLoads.getD i 0
        = wrap32 (s.workerLoads.getD i 0 + 1) ∧
      (∀ j, j ≠ i → (handleOverload s t acc).1.workerLoads.getD j 0
        = s.workerLoads.getD j 0) ∧
      ((handleOverload s t acc).1.workers.getD i dummyWorker).inbox
        = ((if fgt s.metricsQueueUsage s.adjustThreshold then quickScaleUp s
            else s).workers.getD i dummyWorker).inbox ++ [t]) ∧
    ((handleOverload s t acc).2.result = .fallbackRun (rawExecute t) ↔
      (∀ m, m < (if fgt s.metricsQueueUsage s.adjustThreshold then quickScaleUp s
          else s).workers.length → acc m = false)) ∧
    ((∃ i, (handleOverload s t acc).2.result = .overloadHandedTo i) ∨
      (handleOverload s t acc).2.result = .fallbackRun (rawExecute t)) := by
  have hWF1 : WF (if fgt s.metricsQueueUsage s.adjustThreshold then quickScaleUp s else s) := by
    split_ifs
    · exact WF_quickScaleUp s hWF
    · exact hWF
  have hq : (if fgt s.metricsQueueUsage s.adjustThreshold then quickScaleUp s
      else s).workerLoads = s.workerLoads := by
    split_ifs
    · exact (quickScaleUp_fields s).2.2.2.2.2.1
    · rfl
  have hwl : (if fgt s.metricsQueueUsage s.adjustThreshold then quickScaleUp s
      else s).workers.length ≤ (if fgt s.metricsQueueUsage s.adjustThreshold
      then quickScaleUp s else s).workerLoads.length := by
    obtain ⟨_, _, _, _, g5, g6, g7, _, _⟩ := hWF1
    omega
  simp only [handleOverload]
  cases hfa : firstAccepting
      (if fgt s.metricsQueueUsage s.adjustThreshold then quickScaleUp s
       else s).workers.length acc with
  | none =>
      refine ⟨rfl, ?_, ?_, Or.inr rfl⟩
      · intro i h
        exact absurd (show DispatchResult.fallbackRun (rawExecute t)
          = .overloadHandedTo i from h) (by simp)
      · constructor
        · intro _ m hm
          exact firstAccepting_none _ acc hfa m hm
        · intro _
          rfl
  | some i =>
      obtain ⟨hilt, hacc, hfirst⟩ := firstAccepting_some _ acc i hfa
      refine ⟨rfl, ?_, ?_, Or.inl ⟨i, rfl⟩⟩
      · intro i' h
        have h' : DispatchResult.overloadHandedTo i = .overloadHandedTo i' := h
        injection h' with hii
        subst hii
        refine ⟨hacc, hfirst, hilt, ?_, ?_, ?_⟩
        · have := deliverTo_loads_self (if fgt s.metricsQueueUsage s.adjustThreshold
              then quickScaleUp s else s) i t hilt (by omega)
          rw [hq] at this
          exact this
        · intro j hj
          have := deliverTo_loads_ne (if fgt s.metricsQueueUsage s.adjustThreshold
              then quickScaleUp s else s) i t j hj
          rw [hq] at this
          exact this
        · exact deliverTo_inbox _ i t hilt
      · constructor
        · intro hcontra
          exact absurd (show DispatchResult.overloadHandedTo i
            = .fallbackRun (rawExecute t) from hcontra) (by simp)
        · intro hall
          rw [hall i hilt] at hacc
          exact absurd hacc (by simp)

/-- Witness for the amended C3 at a concrete well-formed pool. -/
theorem c3_amended_overload_policy_witness :
    WF c3State ∧
    (handleOverload c3State { run := .ok none } (fun _ => true)).2.scaledUp
      = fgt c3State.metricsQueueUsage c3State.adjustThreshold :=
  ⟨by unfold WF; decide,
   (c3_amended_overload_policy c3State { run := .ok none } (fun _ => true)
     (by unfold WF; decide)).1⟩

/-- A well-formed single-worker pool whose only load counter has reached
`math.MaxInt32` (the value after `2^31 - 1` successful dispatches to it). -/
def c6State : PoolState :=
  { minWorkers := 1
    maxWorkers := 1
    currentWorkers := 1
    queue := []
    queueCap := 1
    queueClosed := false
    workers := [newWorker 0]
    workerLoads := [2147483647]
    metricsQueueUsage := .val 0
    metricsIdleWorkers := .val 0
    adjustThreshold := .val (mkRat 4 5)
    retired := [] }

/-- Claim C6 counterexample.  The claim says the dispatcher always selects
the worker with the minimum counter (ties to the lowest index).  In
`c6State` the minimum counter is `2^31 - 1`, attained first at index 0
(second conjunct, the claim's own selection rule), but `selectWorker`
starts its scan from the sentinel `minLoad = math.MaxInt32`, which no
counter can strictly undercut, and returns `-1`; the dispatcher therefore
escalates straight to overload handling even though worker 0 is idle and
would accept the handoff. -/
theorem c6_counterexample_sentinel :
    WF c6State ∧
    specSelectWorker c6State = 0 ∧
    selectWorker c6State = -1 ∧
    (dispatchStep c6State { run := .ok none } (fun _ => true) (fun _ => true)).2.result
      = .overloadHandedTo 0 := by
  refine ⟨by unfold WF; decide, by decide, by decide, by decide⟩

/-- Claim C6 (amended with the sentinel exception): when some scanned
counter is below `2^31 - 1`, the dispatcher selects the first index
attaining the minimum counter value over `[0, currentWorkers)`; a
successful non-blocking handoff goes to exactly that worker and increments
exactly that worker's counter (with `int32` wrap), and a failed handoff
escalates directly to overload handling without reselection.  When every
scanned counter equals `2^31 - 1`, no worker undercuts the
`math.MaxInt32` sentinel: selection yields `-1` and the task escalates
directly to overload handling. -/
theorem c6_amended_selection (s : PoolState) (t : PoolTask) (acc1 acc2 : Nat → Bool)
    (hWF : WF s) :
    ((∃ a ∈ s.workerLoads.take s.workers.length, a < int32Max) →
      ∃ j : Nat, j < s.workers.length ∧ selectWorker s = (j : Int) ∧
        (∀ k, k < s.workers.length → (s.workerLoads.take s.workers.length).getD j 0
            ≤ (s.workerLoads.take s.workers.length).getD k 0) ∧
        (∀ k, k < j → (s.workerLoads.take s.workers.length).getD j 0
            < (s.workerLoads.take s.workers.length).getD k 0) ∧
        (acc1 j = true →
          dispatchStep s t acc1 acc2
            = (deliverTo s j t, { scaledUp := false, result := .handedTo j }) ∧
          (deliverTo s j t).workerLoads.getD j 0 = wrap32 (s.workerLoads.getD j 0 + 1) ∧
          (∀ k, k ≠ j → (deliverTo s j t).workerLoads.getD k 0 = s.workerLoads.getD k 0)) ∧
        (acc1 j = false → dispatchStep s t acc1 acc2 = handleOverload s t acc2)) ∧
    ((∀ a ∈ s.workerLoads.take s.workers.length, a = int32Max) →
      selectWorker s = -1 ∧ dispatchStep s t acc1 acc2 = handleOverload s t acc2) := by
  obtain ⟨hmin, hminmax, hmax, hcl, hcu, hlen, hll, hlr, hth⟩ := hWF
  have hne : s.workers.length ≠ 0 := by omega
  have hlenle : s.workers.length ≤ s.workerLoads.length := by omega
  have hL : (s.workerLoads.take s.workers.length).length = s.workers.length := by
    rw [List.length_take]
    exact inf_eq_left.mpr hlenle
  obtain ⟨hspec1, hspec2⟩ := selectWorker_spec s hne
  constructor
  · intro hex
    obtain ⟨j, hj1, hj2, hj3, hj4, hj5⟩ := hspec1 hex
    rw [hL] at hj1
    refine ⟨j, hj1, hj2, fun k hk => hj4 k (by rw [hL]; exact hk), hj5, ?_, ?_⟩
    · intro hacc
      refine ⟨?_, deliverTo_loads_self s j t hj1 (by omega),
        fun k hk => deliverTo_loads_ne s j t k hk⟩
      simp only [dispatchStep, hj2]
      rw [if_pos (Int.natCast_nonneg j), if_pos (by exact_mod_cast hj1),
        Int.toNat_natCast, if_pos hacc]
    · intro hacc
      simp only [dispatchStep, hj2]
      rw [if_pos (Int.natCast_nonneg j), if_pos (by exact_mod_cast hj1),
        Int.toNat_natCast, if_neg (by simp [hacc])]
  · intro hall
    have hsel : selectWorker s = -1 := hspec2 (fun a ha => le_of_eq (hall a ha).symm)
    refine ⟨hsel, ?_⟩
    simp only [dispatchStep, hsel]
    rw [if_neg (by omega)]

/-- Witness for the amended C6 at the all-sentinel pool. -/
theorem c6_amended_selection_witness :
    WF c6State ∧ (∀ a ∈ c6State.workerLoads.take c6State.workers.length, a = int32Max) ∧
    (selectWorker c6State = -1 ∧
      dispatchStep c6State { run := .ok none } (fun _ => true) (fun _ => true)
        = handleOverload c6State { run := .ok none } (fun _ => true)) :=
  ⟨by unfold WF; decide, by decide,
   (c6_amended_selection c6State { run := .ok none } (fun _ => true) (fun _ => true)
      (by unfold WF; decide)).2 (by decide)⟩

/-- Claim C7: at or above `maxWorkers`, `quickScaleUp` changes nothing;
below it, the target is `int(float64(current) * 1.2)` (which is at least
the current count) clamped to `maxWorkers`, exactly `target - current` new
workers are created with the next consecutive ids while the atomic count
is incremented one by one to `target`, and no other pool state changes. -/
theorem c7_quickScaleUp_spec (s : PoolState) (hWF : WF s) :
    (s.currentWorkers ≥ s.maxWorkers → quickScaleUp s = s) ∧
    (s.currentWorkers < s.maxWorkers →
      s.currentWorkers ≤ goTrunc12 s.currentWorkers ∧
      (quickScaleUp s).currentWorkers = min (goTrunc12 s.currentWorkers) s.maxWorkers ∧
      (quickScaleUp s).workers = s.workers
          ++ (List.range ((min (goTrunc12 s.currentWorkers) s.maxWorkers
              - s.currentWorkers).toNat)).map
            (fun j : Nat => newWorker (s.currentWorkers + (j : Int))) ∧
      (quickScaleUp s).workers.length
        = (min (goTrunc12 s.currentWorkers) s.maxWorkers).toNat ∧
      (quickScaleUp s).minWorkers = s.minWorkers ∧
      (quickScaleUp s).maxWorkers = s.maxWorkers ∧
      (quickScaleUp s).queue = s.queue ∧
      (quickScaleUp s).queueCap = s.queueCap ∧
      (quickScaleUp s).queueClosed = s.queueClosed ∧
      (quickScaleUp s).workerLoads = s.workerLoads ∧
      (quickScaleUp s).metricsQueueUsage = s.metricsQueueUsage ∧
      (quickScaleUp s).metricsIdleWorkers = s.metricsIdleWorkers ∧
      (quickScaleUp s).adjustThreshold = s.adjustThreshold ∧
      (quickScaleUp s).retired = s.retired) := by
  refine ⟨fun h => quickScaleUp_noop s h, fun h => ?_⟩
  obtain ⟨hm1, hm2, hm3, hm4, hm5, hm6, hm7, hm8, hm9⟩ := hWF
  have hminb : min (goTrunc12 s.currentWorkers) s.maxWorkers
      = if goTrunc12 s.currentWorkers > s.maxWorkers then s.maxWorkers
        else goTrunc12 s.currentWorkers := by
    split_ifs <;> omega
  obtain ⟨hcur, hwork⟩ := quickScaleUp_char s _
    ⟨hm1, hm2, hm3, hm4, hm5, hm6, hm7, hm8, hm9⟩ h hminb
  obtain ⟨f1, f2, f3, f4, f5, f6, f7, f8, f9, f10⟩ := quickScaleUp_fields s
  have h12 : s.currentWorkers ≤ goTrunc12 s.currentWorkers := goTrunc12_ge (by omega)
  refine ⟨h12, hcur, hwork, ?_, f1, f2, f3, f4, f5, f6, f7, f8, f9, f10⟩
  rw [hwork]
  simp only [List.length_append, List.length_map, List.length_range]
  omega

/-- Witness for C7 at a concrete pool below its maximum. -/
theorem c7_quickScaleUp_spec_witness :
    WF (NewWorkPool 5 10 3) ∧
    (quickScaleUp (NewWorkPool 5 10 3)).currentWorkers
      = min (goTrunc12 (NewWorkPool 5 10 3).currentWorkers) (NewWorkPool 5 10 3).maxWorkers :=
  ⟨by unfold WF; decide,
   ((c7_quickScaleUp_spec (NewWorkPool 5 10 3) (by unfold WF; decide)).2 (by decide)).2.1⟩

/-- `ratSub` is ordinary rational subtraction. -/
theorem ratSub_eq (a b : ℚ) : ratSub a b = a - b := by
  have ha : ((a.den : ℚ)) ≠ 0 := by exact_mod_cast a.den_nz
  have hb : ((b.den : ℚ)) ≠ 0 := by exact_mod_cast b.den_nz
  unfold ratSub
  rw [Rat.mkRat_eq_div]
  conv_rhs => rw [← Rat.num_div_den a, ← Rat.num_div_den b]
  rw [div_sub_div _ _ ha hb]
  push_cast
  ring_nf

/-- Sanity anchors for the rounding model: the decimal literals `0.8` and
`0.2` round to their known binary64 values, quotients of small integers
round to the known doubles, and at a true idle ratio of exactly `1/5` the
float64-computed idle value `1.0 - fl(4/5)` is the exactly-representable
`900719925474099/2^52`, strictly below the double literal `0.2`, while the
exact ratio `1/5` is not. -/
theorem roundDouble_anchors :
    roundDouble (mkRat 4 5) = float08 ∧
    roundDouble (mkRat 1 5) = float02 ∧
    roundDouble (mkRat 9 10) > mkRat 4 5 ∧
    idleValue 4 5 = mkRat 900719925474099 4503599627370496 ∧
    idleValue 4 5 < float02 ∧
    ¬ (ratSub 1 (Rat.divInt 4 5) < mkRat 1 5) := by
  refine ⟨by decide, by decide, by decide, by decide, by decide, by decide⟩

/-- The pool state of the C8 counterexample and witness: five workers with
total cumulative load 4 (true idle fraction exactly `1/5`), a queue 9/10
full, `minWorkers = 5`, `maxWorkers = 10`. -/
def c8State : PoolState :=
  { minWorkers := 5
    maxWorkers := 10
    currentWorkers := 5
    queue := List.replicate 9 { run := .ok none }
    queueCap := 10
    queueClosed := false
    workers := [newWorker 0, newWorker 1, newWorker 2, newWorker 3, newWorker 4]
    workerLoads := [4, 0, 0, 0, 0, 0, 0, 0, 0, 0]
    metricsQueueUsage := .val 0
    metricsIdleWorkers := .val 0
    adjustThreshold := .val (mkRat 4 5)
    retired := [] }

/-- Claim C8 counterexample.  The claim's grow condition reads "idle
fraction is below 0.2"; in `c8State` the freshly recomputed occupancy is
`9/10 > 0.8` but the idle fraction is exactly `1/5`, which is *not* below
0.2, so by the claim the tick must leave the count at 5.  The program
computes the idle metric in float64: `1.0 - 4.0/5.0` rounds to
`900719925474099/2^52 ≈ 0.19999999999999996`, which *is* below the double
literal `0.2`, so the tick grows the pool to `int(1.2 * 5) = 6` workers. -/
theorem c8_counterexample_float_idle_boundary :
    WF c8State ∧
    totalLoadOf c8State = 4 ∧
    c8State.workers.length = 5 ∧
    fgt (fdiv ((c8State.queue.length : Int)) ((c8State.queueCap : Int)))
        c8State.adjustThreshold = true ∧
    ¬ (ratSub 1 (Rat.divInt (totalLoadOf c8State) ((c8State.workers.length : Int)))
        < mkRat 1 5) ∧
    idleValue (totalLoadOf c8State) ((c8State.workers.length : Int)) < float02 ∧
    c8State.currentWorkers = 5 ∧
    (applyOp c8State .tick).currentWorkers = 6 := by
  refine ⟨by unfold WF; decide, by decide, by decide, by decide, by decide, by decide,
    by decide, by decide⟩

/-- Claim C8 (amended: the grow/shrink tests are evaluated in IEEE-754
double precision on the recomputed float64 metrics — in particular the
idle value is `1.0 - float64(totalLoad)/float64(len)` compared against the
double literals `0.2` and `0.8`, which at a true idle fraction of exactly
`1/5` compares below `0.2` and fires the grow branch): each tick
recomputes the metrics and moves `currentWorkers` to exactly
`clampTarget s (tickTarget s)` — grow to `int(1.2 c)` when occupancy
exceeds the threshold and the float64 idle value is below the double
`0.2`, shrink to `int(0.8 c)` when occupancy is below `0.2` and the
float64 idle value exceeds the double `0.8`, otherwise keep `c`, clamped
to `[minWorkers, maxWorkers]`.  Shrinking keeps exactly the lowest-index
prefix and stops the discarded workers from the highest index downward. -/
theorem c8_tick_spec (s : PoolState) (hWF : WF s) :
    (applyOp s .tick).currentWorkers = clampTarget s (tickTarget s) ∧
    s.minWorkers ≤ (applyOp s .tick).currentWorkers ∧
    (applyOp s .tick).currentWorkers ≤ s.maxWorkers ∧
    (s.currentWorkers ≤ clampTarget s (tickTarget s) →
      (applyOp s .tick).workers.length = (clampTarget s (tickTarget s)).toNat ∧
      (applyOp s .tick).retired = s.retired) ∧
    (clampTarget s (tickTarget s) < s.currentWorkers →
      (applyOp s .tick).workers = s.workers.take (clampTarget s (tickTarget s)).toNat ∧
      (applyOp s .tick).retired
        = s.retired ++ ((s.workers.drop (clampTarget s (tickTarget s)).toNat).map
            stopWorker).reverse) := by
  obtain ⟨hm1, hm2, hm3, hm4, hm5, hm6, hm7, hm8, hm9⟩ := hWF
  have hWFu : WF (updateMetrics s) := ⟨hm1, hm2, hm3, hm4, hm5, hm6, hm7, hm8, hm9⟩
  have hlen0 : 0 < s.workers.length := by omega
  have htteq := tick_target_eq s hlen0
  have htv : clampTarget s (tickTarget s)
      = clampTarget (updateMetrics s)
        (if growCond (updateMetrics s) then goTrunc12 (updateMetrics s).currentWorkers
         else if shrinkCond (updateMetrics s) then goTrunc08 (updateMetrics s).currentWorkers
         else (updateMetrics s).currentWorkers) := by
    rw [htteq]
    rfl
  obtain ⟨hcur, hgrow, hshrink⟩ :=
    adjustWorkerCount_char (updateMetrics s) (clampTarget s (tickTarget s)) hWFu htv
  obtain ⟨hb1, hb2⟩ := clampTarget_bounds s (tickTarget s) hm2
  refine ⟨hcur, ?_, ?_, ?_, ?_⟩
  · rw [show (applyOp s .tick).currentWorkers
        = (adjustWorkerCount (updateMetrics s)).currentWorkers from rfl, hcur]
    exact hb1
  · rw [show (applyOp s .tick).currentWorkers
        = (adjustWorkerCount (updateMetrics s)).currentWorkers from rfl, hcur]
    exact hb2
  · intro h
    obtain ⟨hw, hr⟩ := hgrow h
    constructor
    · rw [show (applyOp s .tick).workers
          = (adjustWorkerCount (updateMetrics s)).workers from rfl, hw]
      simp only [List.length_append, List.length_map, List.length_range]
      have e : (updateMetrics s).workers.length = s.workers.length := rfl
      rw [e]
      have e2 : (updateMetrics s).currentWorkers = s.currentWorkers := rfl
      rw [e2]
      omega
    · exact hr
  · intro h
    obtain ⟨hw, hr⟩ := hshrink h
    exact ⟨hw, hr⟩

/-- Witness for the amended C8 at the boundary state: occupancy 9/10 and a
true idle fraction of exactly 1/5, where the float64 comparison fires the
grow branch (`clampTarget c8State (tickTarget c8State) = 6`, per the
counterexample). -/
theorem c8_tick_spec_witness :
    WF c8State ∧
    (applyOp c8State .tick).currentWorkers = clampTarget c8State (tickTarget c8State) :=
  ⟨by unfold WF; decide, (c8_tick_spec c8State (by unfold WF; decide)).1⟩

/-- Claim C9 counterexample.  The claim says every load counter is
monotonically non-decreasing over the pool's lifetime.  In `c6State` the
single counter holds `2^31 - 1`; the next successful dispatch to that
worker (here via the overload re-scan, since the sentinel scan selects
nobody) performs `atomic.AddInt32(+1)`, which wraps to `-2^31`: the
counter decreases. -/
theorem c9_counterexample_wraparound :
    (dispatchStep c6State { run := .ok none } (fun _ => true) (fun _ => true)).2.result
      = .overloadHandedTo 0 ∧
    (dispatchStep c6State { run := .ok none } (fun _ => true)
        (fun _ => true)).1.workerLoads.getD 0 0
      < c6State.workerLoads.getD 0 0 := by
  refine ⟨by decide, by decide⟩

/-- Claim C9 (amended with `int32` wraparound): under any single pool
operation each load-counter slot is either unchanged or bumped by exactly
one `int32` increment (so it can only decrease at the `2^31 - 1 → -2^31`
wrap); below the wrap boundary it never decreases; and the scaling tick —
including any shrink — and shutdown never touch the array, so a removed
worker's cumulative count is retained at its index for later reuse. -/
theorem c9_amended_load_counters (s : PoolState) (op : PoolOp) (hWF : WF s) :
    ((applyOp s op).workerLoads.length = s.workerLoads.length) ∧
    (∀ j : Nat,
      (applyOp s op).workerLoads.getD j 0 = s.workerLoads.getD j 0 ∨
      (applyOp s op).workerLoads.getD j 0 = wrap32 (s.workerLoads.getD j 0 + 1)) ∧
    (∀ j : Nat, s.workerLoads.getD j 0 < int32Max →
      s.workerLoads.getD j 0 ≤ (applyOp s op).workerLoads.getD j 0) ∧
    (applyOp s .tick).workerLoads = s.workerLoads ∧
    (applyOp s .stopOp).workerLoads = s.workerLoads := by
  have htick : (applyOp s .tick).workerLoads = s.workerLoads :=
    (adjustWorkerCount_fields (updateMetrics s)).2.2.2.2.2.1
  have hcases : ∀ j : Nat,
      (applyOp s op).workerLoads.getD j 0 = s.workerLoads.getD j 0 ∨
      (applyOp s op).workerLoads.getD j 0 = wrap32 (s.workerLoads.getD j 0 + 1) := by
    intro j
    cases op with
    | dispatchOp a1 a2 =>
        simp only [applyOp]
        cases hq : s.queue with
        | nil => exact Or.inl rfl
        | cons t rest => exact (dispatchStep_loads_cases _ t a1 a2 j).1
    | submitOp t =>
        simp only [applyOp, submit]
        split_ifs <;> exact Or.inl rfl
    | tick => exact Or.inl (by rw [htick])
    | stopOp => exact Or.inl rfl
  have hlength : (applyOp s op).workerLoads.length = s.workerLoads.length := by
    cases op with
    | dispatchOp a1 a2 =>
        simp only [applyOp]
        cases hq : s.queue with
        | nil => rfl
        | cons t rest => exact (dispatchStep_loads_cases _ t a1 a2 0).2
    | submitOp t =>
        simp only [applyOp, submit]
        split_ifs <;> rfl
    | tick => rw [htick]
    | stopOp => rfl
  refine ⟨hlength, hcases, ?_, htick, rfl⟩
  intro j hj
  have hj' : s.workerLoads.getD j 0 < 2147483647 := hj
  obtain ⟨hr1, hr2⟩ := loads_getD_range s hWF j
  rcases hcases j with h | h
  · rw [h]
  · rw [h, wrap32_eq_self (by omega) (by omega)]
    omega

/-- Witness for the amended C9: a submission leaves the counters alone. -/
theorem c9_amended_load_counters_witness :
    (applyOp (NewWorkPool 1 2 1) (.submitOp { run := .ok none })).workerLoads.length
      = (NewWorkPool 1 2 1).workerLoads.length :=
  (c9_amended_load_counters (NewWorkPool 1 2 1) (.submitOp { run := .ok none })
    (by unfold WF; decide)).1

theorem fgt_nan_left (y : GoFloat) : fgt GoFloat.nan y = false := by
  cases y <;> rfl

theorem fgt_nan_right (x : GoFloat) : fgt x GoFloat.nan = false := by
  cases x <;> rfl

/-- Claim C10: for every pool constructed with `queueCapacity = 0`, in every
reachable state the recomputed occupancy metric is `0.0/0.0 = NaN`, so the
overload path's emergency trigger never fires (NaN compares false against
the threshold — and before the first tick the zero-valued metric compares
false as well), and a tick's occupancy-gated grow and shrink conditions
never fire: the tick changes neither the worker count nor the worker set. -/
theorem c10_nan_disables_scaling (minW maxW : Int) (ops : List PoolOp)
    (h1 : 0 < minW) (h2 : minW ≤ maxW) (h3 : maxW < 2147483648) :
    (updateMetrics (runOps (NewWorkPool minW maxW 0) ops)).metricsQueueUsage = .nan ∧
    (∀ (t : PoolTask) (acc : Nat → Bool),
      (handleOverload (runOps (NewWorkPool minW maxW 0) ops) t acc).2.scaledUp = false) ∧
    (applyOp (runOps (NewWorkPool minW maxW 0) ops) .tick).currentWorkers
      = (runOps (NewWorkPool minW maxW 0) ops).currentWorkers ∧
    (applyOp (runOps (NewWorkPool minW maxW 0) ops) .tick).workers
      = (runOps (NewWorkPool minW maxW 0) ops).workers := by
  set s := runOps (NewWorkPool minW maxW 0) ops with hs
  have hWF : WF s := WF_runOps _ ops (WF_NewWorkPool minW maxW 0 h1 h2 h3)
  have hzc : ZeroCapInv s := zeroCapInv_runOps _ ops ⟨rfl, rfl, Or.inl rfl, rfl⟩
  obtain ⟨hcap, hque, hqu, hth⟩ := hzc
  have hnan : (updateMetrics s).metricsQueueUsage = .nan := by
    simp only [updateMetrics]
    rw [hque, hcap]
    rfl
  have hf := zeroCapInv_no_trigger s ⟨hcap, hque, hqu, hth⟩
  have hnotrigger : ∀ (t : PoolTask) (acc : Nat → Bool),
      (handleOverload s t acc).2.scaledUp = false := by
    intro t acc
    simp only [handleOverload]
    cases hfa : firstAccepting (if fgt s.metricsQueueUsage s.adjustThreshold
        then quickScaleUp s else s).workers.length acc with
    | none => exact hf
    | some i => exact hf
  have hgc : growCond (updateMetrics s) = false := by
    simp only [growCond, hnan, fgt_nan_left, Bool.false_and]
  have hsc : shrinkCond (updateMetrics s) = false := by
    simp only [shrinkCond, hnan, flt, fgt_nan_right, Bool.false_and]
  obtain ⟨hm1, hm2, hm3, hm4, hm5, hm6, hm7, hm8, hm9⟩ := hWF
  have htv : s.currentWorkers = clampTarget (updateMetrics s)
      (if growCond (updateMetrics s) then goTrunc12 (updateMetrics s).currentWorkers
       else if shrinkCond (updateMetrics s) then goTrunc08 (updateMetrics s).currentWorkers
       else (updateMetrics s).currentWorkers) := by
    rw [hgc, hsc]
    simp only [Bool.false_eq_true, if_false]
    show s.currentWorkers = clampTarget (updateMetrics s) s.currentWorkers
    unfold clampTarget
    have e1 : (updateMetrics s).minWorkers = s.minWorkers := rfl
    have e2 : (updateMetrics s).maxWorkers = s.maxWorkers := rfl
    rw [e1, e2]
    split_ifs <;> omega
  obtain ⟨hcur, hgrow, _⟩ := adjustWorkerCount_char (updateMetrics s) s.currentWorkers
    ⟨hm1, hm2, hm3, hm4, hm5, hm6, hm7, hm8, hm9⟩ htv
  refine ⟨hnan, hnotrigger, hcur, ?_⟩
  obtain ⟨hw, _⟩ := hgrow (le_refl s.currentWorkers)
  rw [show (applyOp s .tick).workers = (adjustWorkerCount (updateMetrics s)).workers from rfl,
    hw]
  have hz : (s.currentWorkers - (updateMetrics s).currentWorkers).toNat = 0 := by
    have e : (updateMetrics s).currentWorkers = s.currentWorkers := rfl
    rw [e]
    omega
  rw [hz]
  simp only [List.range_zero, List.map_nil, List.append_nil]
  rfl

/-- Witness for C10 at a concrete zero-capacity pool after a tick and a
blocked submission. -/
theorem c10_nan_disables_scaling_witness :
    (updateMetrics (runOps (NewWorkPool 1 2 0)
        [.tick, .submitOp { run := .ok none }])).metricsQueueUsage = .nan ∧
    (applyOp (runOps (NewWorkPool 1 2 0) [.tick, .submitOp { run := .ok none }])
        .tick).currentWorkers
      = (runOps (NewWorkPool 1 2 0) [.tick, .submitOp { run := .ok none }]).currentWorkers :=
  ⟨(c10_nan_disables_scaling 1 2 [.tick, .submitOp { run := .ok none }]
      (by decide) (by decide) (by decide)).1,
   (c10_nan_disables_scaling 1 2 [.tick, .submitOp { run := .ok none }]
      (by decide) (by decide) (by decide)).2.2.1⟩
